import Mathlib

/-!
Verification development for the MHWorldData merge/validation core.

The definitions below are a shallow embedding of two Python modules:
  * mhdata/load/validate.py   (the cross-entity validation engine)
  * mhdata/merge/binary/load.py (weapon tree and armor series assemblers)

Python-specific behaviour is modelled explicitly:
  * Python dicts are insertion-ordered association lists; assigning to an
    existing key replaces the value but keeps the key's position.
  * Python sets are modelled as de-duplicating insertion-ordered lists
    (only membership, size and emptiness are ever observed).
  * Python string comparison is code-point lexicographic, and the operator
    `in` applied to two strings is contiguous-substring containment.
  * Python `sorted` is a stable comparison sort; any stable sort by the
    same total preorder produces the identical list, so it is embedded as
    insertion sort by the same ordering.
  * Error/warning messages are modelled as a structured inductive type
    `Msg`, one constructor per distinct f-string of the source, carrying
    exactly the interpolated fields.
-/

/-- Python set.add on the insertion-ordered list model of a set. -/
def pySetAdd {α : Type} [DecidableEq α] (l : List α) (a : α) : List α :=
  if a ∈ l then l else l ++ [a]

/-- Python dict assignment d[k] = v: replaces in place, appends when the key
is new (dicts are insertion ordered). -/
def pyDictSet {κ ν : Type} [DecidableEq κ] : List (κ × ν) → κ → ν → List (κ × ν)
  | [], k, v => [(k, v)]
  | (k0, v0) :: rest, k, v =>
    if k0 = k then (k0, v) :: rest else (k0, v0) :: pyDictSet rest k v

/-- Python dict.get(k) on the association-list model. -/
def pyLookup {κ ν : Type} [DecidableEq κ] : List (κ × ν) → κ → Option ν
  | [], _ => none
  | (k0, v0) :: rest, k => if k0 = k then some v0 else pyLookup rest k

/-- Truthiness of an optional Python string: None and the empty string are
falsy. -/
def pyTruthyStr : Option String → Bool
  | none => false
  | some s => !(s == "")

/-- Code-point lexicographic comparison of character lists, the order Python
uses to compare strings. -/
def lexLe : List Char → List Char → Bool
  | [], _ => true
  | _ :: _, [] => false
  | a :: as, b :: bs => if a < b then true else if a = b then lexLe as bs else false

/-- Python string less-or-equal. -/
def pyStrLe (a b : String) : Bool := lexLe a.data b.data

/-- Python comparison of a pair of strings (tuple comparison is
lexicographic). -/
def keyLe (x y : String × String) : Bool :=
  if x.1 = y.1 then pyStrLe x.2 y.2 else pyStrLe x.1 y.1

/-- Contiguous-substring test on character lists: the semantics of the
Python expression `sub in s` for strings. -/
def pyStrContains (sub : List Char) : List Char → Bool
  | [] => sub.isEmpty
  | c :: rest => sub.isPrefixOf (c :: rest) || pyStrContains sub rest

/-- Python `sub in s` for strings. -/
def pyStrIn (sub s : String) : Bool := pyStrContains sub.data s.data

/-- itertools.groupby: split a list into maximal runs of adjacent elements
sharing a key, yielding (key, run) pairs in order. -/
def groupRuns {α κ : Type} [DecidableEq κ] (key : α → κ) : List α → List (κ × List α)
  | [] => []
  | a :: rest =>
    match groupRuns key rest with
    | [] => [(key a, [a])]
    | (k, g) :: t =>
      if key a = k then (key a, a :: g) :: t else (key a, [a]) :: (k, g) :: t

theorem lexLe_refl (a : List Char) : lexLe a a = true := by
  induction a with
  | nil => rfl
  | cons c cs ih => simp [lexLe, ih]

theorem lexLe_total (a b : List Char) : lexLe a b = true ∨ lexLe b a = true := by
  induction a generalizing b with
  | nil => exact Or.inl rfl
  | cons c cs ih =>
    cases b with
    | nil => exact Or.inr rfl
    | cons d ds =>
      rcases lt_trichotomy c d with h | h | h
      · left; simp [lexLe, h]
      · subst h
        rcases ih ds with h2 | h2
        · left; simp [lexLe, h2]
        · right; simp [lexLe, h2]
      · right; simp [lexLe, h]

theorem lexLe_trans {a b c : List Char} (h1 : lexLe a b = true) (h2 : lexLe b c = true) :
    lexLe a c = true := by
  induction a generalizing b c with
  | nil => rfl
  | cons x xs ih =>
    cases b with
    | nil => simp [lexLe] at h1
    | cons y ys =>
      cases c with
      | nil => simp [lexLe] at h2
      | cons z zs =>
        simp only [lexLe] at h1 h2 ⊢
        by_cases hxy : x < y
        · by_cases hyz : y < z
          · simp [lt_trans hxy hyz]
          · simp only [hyz, if_false] at h2
            by_cases hyz2 : y = z
            · subst hyz2; simp [hxy]
            · simp [hyz2] at h2
        · simp only [hxy, if_false] at h1
          by_cases hxy2 : x = y
          · subst hxy2
            simp only [if_neg hxy] at h1
            by_cases hxz : x < z
            · simp [hxz]
            · simp only [hxz, if_false] at h2 ⊢
              by_cases hxz2 : x = z
              · subst hxz2
                simp only [lt_irrefl, if_false, if_pos rfl] at h1 h2 ⊢
                exact ih h1 h2
              · simp [hxz2] at h2 ⊢
          · simp [hxy2] at h1

theorem lexLe_antisymm {a b : List Char} (h1 : lexLe a b = true) (h2 : lexLe b a = true) :
    a = b := by
  induction a generalizing b with
  | nil =>
    cases b with
    | nil => rfl
    | cons d ds => simp [lexLe] at h2
  | cons c cs ih =>
    cases b with
    | nil => simp [lexLe] at h1
    | cons d ds =>
      simp only [lexLe] at h1 h2
      by_cases hcd : c < d
      · by_cases hdc : d < c
        · exact absurd (lt_trans hcd hdc) (lt_irrefl c)
        · simp only [hdc, if_false] at h2
          by_cases hdc2 : d = c
          · exact absurd hcd (by simp [hdc2])
          · simp [hdc2] at h2
      · simp only [hcd, if_false] at h1
        by_cases hcd2 : c = d
        · subst hcd2
          simp only [lt_irrefl, if_false, if_pos rfl] at h1 h2
          rw [ih h1 h2]
        · simp [hcd2] at h1

theorem pyStrLe_refl (a : String) : pyStrLe a a = true := lexLe_refl a.data

theorem pyStrLe_total (a b : String) : pyStrLe a b = true ∨ pyStrLe b a = true :=
  lexLe_total a.data b.data

theorem pyStrLe_trans {a b c : String} (h1 : pyStrLe a b = true) (h2 : pyStrLe b c = true) :
    pyStrLe a c = true := lexLe_trans h1 h2

theorem pyStrLe_antisymm {a b : String} (h1 : pyStrLe a b = true) (h2 : pyStrLe b a = true) :
    a = b := String.ext (lexLe_antisymm h1 h2)

theorem keyLe_total (x y : String × String) : keyLe x y = true ∨ keyLe y x = true := by
  unfold keyLe
  by_cases h : x.1 = y.1
  · simp only [h, if_pos rfl, if_pos (Eq.symm h)]
    exact pyStrLe_total x.2 y.2
  · simp only [if_neg h, if_neg (fun hh => h (Eq.symm hh))]
    exact pyStrLe_total x.1 y.1

theorem keyLe_trans {x y z : String × String} (h1 : keyLe x y = true) (h2 : keyLe y z = true) :
    keyLe x z = true := by
  unfold keyLe at h1 h2 ⊢
  by_cases hxy : x.1 = y.1
  · by_cases hyz : y.1 = z.1
    · simp only [if_pos hxy] at h1
      simp only [if_pos hyz] at h2
      rw [if_pos (hxy.trans hyz)]
      exact pyStrLe_trans h1 h2
    · simp only [if_neg hyz] at h2
      rw [if_neg (fun h => hyz (hxy ▸ h)), hxy]
      exact h2
  · by_cases hyz : y.1 = z.1
    · simp only [if_neg hxy] at h1
      rw [if_neg (fun h => hxy (hyz ▸ h)), ← hyz]
      exact h1
    · simp only [if_neg hxy] at h1
      simp only [if_neg hyz] at h2
      have hle := pyStrLe_trans h1 h2
      by_cases hxz : x.1 = z.1
      · exact absurd (pyStrLe_antisymm h2 (hxz ▸ h1)) hyz
      · rw [if_neg hxz]; exact hle

theorem keyLe_antisymm {x y : String × String} (h1 : keyLe x y = true) (h2 : keyLe y x = true) :
    x = y := by
  unfold keyLe at h1 h2
  by_cases hxy : x.1 = y.1
  · simp only [if_pos hxy] at h1
    simp only [if_pos (Eq.symm hxy)] at h2
    exact Prod.ext hxy (pyStrLe_antisymm h1 h2)
  · simp only [if_neg hxy, if_neg (fun h => hxy (Eq.symm h))] at h1 h2
    exact absurd (pyStrLe_antisymm h1 h2) hxy

theorem pyLookup_pyDictSet_self {κ ν : Type} [DecidableEq κ] (m : List (κ × ν)) (k : κ) (v : ν) :
    pyLookup (pyDictSet m k v) k = some v := by
  induction m with
  | nil => simp [pyDictSet, pyLookup]
  | cons hd rest ih =>
    obtain ⟨k0, v0⟩ := hd
    by_cases h : k0 = k
    · simp [pyDictSet, pyLookup, h]
    · simp [pyDictSet, pyLookup, h, ih]

theorem pyLookup_pyDictSet_other {κ ν : Type} [DecidableEq κ] (m : List (κ × ν)) (k j : κ)
    (v : ν) (hjk : j ≠ k) : pyLookup (pyDictSet m k v) j = pyLookup m j := by
  induction m with
  | nil =>
    simp only [pyDictSet, pyLookup]
    rw [if_neg (fun h : k = j => hjk h.symm)]
  | cons hd rest ih =>
    obtain ⟨k0, v0⟩ := hd
    simp only [pyDictSet]
    by_cases h : k0 = k
    · rw [if_pos h]
      subst h
      simp only [pyLookup]
      rw [if_neg (fun h2 : k0 = j => hjk h2.symm), if_neg (fun h2 : k0 = j => hjk h2.symm)]
    · rw [if_neg h]
      simp only [pyLookup]
      by_cases h2 : k0 = j
      · rw [if_pos h2, if_pos h2]
      · rw [if_neg h2, if_neg h2, ih]

theorem groupRuns_flatMap {α κ : Type} [DecidableEq κ] (key : α → κ) (l : List α) :
    (groupRuns key l).flatMap Prod.snd = l := by
  induction l with
  | nil => rfl
  | cons a rest ih =>
    cases hgr : groupRuns key rest with
    | nil =>
      rw [hgr] at ih
      simp only [List.flatMap_nil] at ih
      simp [groupRuns, hgr, ← ih]
    | cons hd t =>
      obtain ⟨k, g⟩ := hd
      rw [hgr] at ih
      simp only [List.flatMap_cons] at ih
      by_cases hk : key a = k
      · simp [groupRuns, hgr, hk, ih]
      · simp [groupRuns, hgr, hk, ih]

theorem groupRuns_mem {α κ : Type} [DecidableEq κ] (key : α → κ) (l : List α) :
    ∀ p ∈ groupRuns key l, p.2 ≠ [] ∧ ∀ x ∈ p.2, key x = p.1 := by
  induction l with
  | nil => intro p hp; simp [groupRuns] at hp
  | cons a rest ih =>
    intro p hp
    cases hgr : groupRuns key rest with
    | nil =>
      simp only [groupRuns, hgr] at hp
      simp only [List.mem_singleton] at hp
      subst hp
      refine ⟨by simp, ?_⟩
      intro x hx
      simp only [List.mem_singleton] at hx
      subst hx; rfl
    | cons hd t =>
      obtain ⟨k, g⟩ := hd
      simp only [groupRuns, hgr] at hp
      by_cases hk : key a = k
      · rw [if_pos hk] at hp
        rcases List.mem_cons.mp hp with hp | hp
        · subst hp
          refine ⟨by simp, ?_⟩
          intro x hx
          rcases List.mem_cons.mp hx with hx | hx
          · subst hx; rfl
          · have := (ih (k, g) (by rw [hgr]; exact List.mem_cons_self _ _)).2 x hx
            simpa [hk] using this
        · exact ih p (by rw [hgr]; exact List.mem_cons_of_mem _ hp)
      · rw [if_neg hk] at hp
        rcases List.mem_cons.mp hp with hp | hp
        · subst hp
          refine ⟨by simp, ?_⟩
          intro x hx
          simp only [List.mem_singleton] at hx
          subst hx; rfl
        · exact ih p (by rw [hgr]; exact hp)

theorem groupRuns_keys_distinct {α κ : Type} [DecidableEq κ] (key : α → κ)
    (kle : κ → κ → Bool)
    (hanti : ∀ x y, kle x y = true → kle y x = true → x = y) :
    ∀ l : List α, l.Pairwise (fun a b => kle (key a) (key b) = true) →
      ((groupRuns key l).map Prod.fst).Pairwise (fun k1 k2 => k1 ≠ k2) := by
  intro l
  induction l with
  | nil => intro _; simp [groupRuns]
  | cons a rest ih =>
    intro hp
    obtain ⟨hhead, hpr⟩ := List.pairwise_cons.mp hp
    have ihr := ih hpr
    have hflat := groupRuns_flatMap key rest
    have hmem := groupRuns_mem key rest
    cases hgr : groupRuns key rest with
    | nil => simp [groupRuns, hgr]
    | cons hd t =>
      obtain ⟨k, g⟩ := hd
      rw [hgr] at ihr hflat hmem
      simp only [List.flatMap_cons] at hflat
      simp only [groupRuns, hgr]
      by_cases hk : key a = k
      · rw [if_pos hk]
        simpa [hk] using ihr
      · rw [if_neg hk]
        simp only [List.map_cons, List.pairwise_cons] at ihr ⊢
        refine ⟨?_, ihr⟩
        intro k2 hk2
        rcases List.mem_cons.mp hk2 with hk2 | hk2
        · exact fun h => hk (h.trans hk2)
        · -- k2 is the key of a deeper group; rule out key a = k2 by antisymmetry
          simp only [List.mem_map] at hk2
          obtain ⟨p, hpt, hpk⟩ := hk2
          obtain ⟨hgne, hgkey⟩ := hmem (k, g) (List.mem_cons_self _ _)
          obtain ⟨hpne, hpkey⟩ := hmem p (List.mem_cons_of_mem _ hpt)
          obtain ⟨y, hy⟩ := List.exists_mem_of_ne_nil g hgne
          obtain ⟨x, hx⟩ := List.exists_mem_of_ne_nil p.2 hpne
          have hyrest : y ∈ rest := by
            rw [← hflat]; exact List.mem_append_left _ hy
          have hxflat : x ∈ t.flatMap Prod.snd := List.mem_flatMap.mpr ⟨p, hpt, hx⟩
          -- sortedness of rest across the append boundary g ++ flatMap t
          have hsplit := (List.pairwise_append.mp (hflat ▸ hpr)).2.2
          have hk_le_k2 : kle k k2 = true := by
            have h2 := hsplit y hy x hxflat
            rw [hgkey y hy, hpkey x hx, hpk] at h2
            exact h2
          intro hak2
          have ha_le_k : kle k2 k = true := by
            have h2 := hhead y hyrest
            rw [hgkey y hy, hak2] at h2
            exact h2
          exact hk (hak2.trans (hanti k2 k ha_le_k hk_le_k2))

theorem flatMap_filter_of_distinct {α κ : Type} [DecidableEq κ] (key : α → κ) :
    ∀ gs : List (κ × List α), ((gs.map Prod.fst).Pairwise (fun k1 k2 => k1 ≠ k2)) →
      (∀ p ∈ gs, ∀ x ∈ p.2, key x = p.1) →
      ∀ p ∈ gs, (gs.flatMap Prod.snd).filter (fun x => decide (key x = p.1)) = p.2 := by
  intro gs
  induction gs with
  | nil => intro _ _ p hp; simp at hp
  | cons hd tl ih =>
    intro hdist hkeys p hp
    rw [List.map_cons, List.pairwise_cons] at hdist
    obtain ⟨hhd, hdist'⟩ := hdist
    simp only [List.flatMap_cons, List.filter_append]
    rcases List.mem_cons.mp hp with hp | hp
    · rw [hp]
      have h1 : hd.2.filter (fun x => decide (key x = hd.1)) = hd.2 :=
        List.filter_eq_self.mpr (by
          intro x hx
          simpa using hkeys hd (List.mem_cons_self _ _) x hx)
      have h2 : (tl.flatMap Prod.snd).filter (fun x => decide (key x = hd.1)) = [] := by
        apply List.filter_eq_nil_iff.mpr
        intro x hx
        obtain ⟨q, hq, hxq⟩ := List.mem_flatMap.mp hx
        have hkx := hkeys q (List.mem_cons_of_mem _ hq) x hxq
        simp only [decide_eq_true_eq, hkx]
        exact fun h => (hhd q.1 (List.mem_map.mpr ⟨q, hq, rfl⟩)) (Eq.symm h)
      rw [h1, h2, List.append_nil]
    · have h1 : hd.2.filter (fun x => decide (key x = p.1)) = [] := by
        apply List.filter_eq_nil_iff.mpr
        intro x hx
        have hkx := hkeys hd (List.mem_cons_self _ _) x hx
        simp only [decide_eq_true_eq, hkx]
        exact hhd p.1 (List.mem_map.mpr ⟨p, hp, rfl⟩)
      rw [h1, List.nil_append]
      exact ih hdist' (fun q hq => hkeys q (List.mem_cons_of_mem _ hq)) p hp

theorem map_sum_single {κ β : Type} (tk : κ) :
    ∀ (gs : List (κ × β)) (v : κ × β → Nat) (ph : κ × β),
      ((gs.map Prod.fst).Pairwise (fun k1 k2 => k1 ≠ k2)) → ph ∈ gs → ph.1 = tk →
      (∀ p ∈ gs, p.1 ≠ tk → v p = 0) →
      (gs.map v).sum = v ph := by
  intro gs
  induction gs with
  | nil => intro v ph _ hph; simp at hph
  | cons hd tl ih =>
    intro v ph hdist hph hphk hzero
    rw [List.map_cons, List.pairwise_cons] at hdist
    obtain ⟨hhd, hdist'⟩ := hdist
    simp only [List.map_cons, List.sum_cons]
    rcases List.mem_cons.mp hph with hph | hph
    · rw [hph]
      have hhdtk : hd.1 = tk := by rw [← hph]; exact hphk
      have htl : (tl.map v).sum = 0 := by
        apply List.sum_eq_zero
        intro x hx
        obtain ⟨q, hq, hxq⟩ := List.mem_map.mp hx
        subst hxq
        exact hzero q (List.mem_cons_of_mem _ hq)
          (fun h => (hhd q.1 (List.mem_map.mpr ⟨q, hq, rfl⟩)) (hhdtk.trans h.symm))
      rw [htl, Nat.add_zero]
    · have hhd0 : v hd = 0 :=
        hzero hd (List.mem_cons_self _ _)
          (fun h => (hhd ph.1 (List.mem_map.mpr ⟨ph, hph, rfl⟩)) (h.trans hphk.symm))
      rw [hhd0, Nat.zero_add]
      exact ih v ph hdist' hph hphk (fun q hq => hzero q (List.mem_cons_of_mem _ hq))

/-! ## Data model of the merged dataset consumed by mhdata/load/validate.py -/

/-- One structured message per distinct f-string of validate.py, carrying
exactly the interpolated fields. -/
inductive Msg where
  | itemComboMissing (item : String)
  | locationItemMissing (item : String)
  | monsterHitzonesWarn (monster : String)
  | monsterWeaknessWarn (monster : String)
  | monsterNormalWeakness (monster : String)
  | invalidCondition (condition monster : String)
  | rewardItemMissing (item : String)
  | unsupportedRank (rank monster : String)
  | rewardsNotExact (monster rank condition : String)
  | rewardsNotAtLeast (monster rank condition : String)
  | skillOutOfRange (skill : String) (level : Int)
  | skillMissingLevels (skill : String)
  | armorsetInvalidMonster (setname monster : String)
  | armorsetNoArmorWarn (setname : String)
  | armorsetInvalidArmor (setname armor : String)
  | armorsetDupArmor (setname armor : String)
  | armorNotInSet (armor : String)
  | armorItemMissing (item : String)
  | armorSkillMissing (skill : String)
  | bonusSkillMissing (skill : String)
  | weaponNoRecipes (weapon : String)
  | weaponInvalidRecipeItem (weapon item : String)
  | weaponNoSharpness (weapon : String)
  | weaponNoNotes (weapon : String)
  | weaponMissingBow (weapon : String)
  | weaponMissingAmmo (weapon : String)
  | weaponInvalidAmmo (weapon : String)
  | weaponElementNoAttack (weapon : String)
  | weaponEldersealNoDragon (weapon : String)
  | weaponDragonNoElderseal (weapon : String)
  | weaponSuspiciousAttack (weapon : String)
  | ammoInvalidRapid (config key : String)
  | ammoInvalidRecoil (config key : String)
  | ammoInvalidReload (config key : String)
  | ammoMissingRecoil (config key : String)
  | ammoMissingReload (config key : String)
  | charmPreviousMissing (charm : String)
deriving DecidableEq

/-- A validation rule's output: collected error-severity issues and the
warning-severity issues it prints along the way. -/
structure VOut where
  errors : List Msg
  warnings : List Msg
deriving DecidableEq

/-- Modelled from the spec: the configuration constants of the module
mhdata.cfg (not among the repository files given) — supported ranks, armor
part keys, weapon category groupings, named weapon types and the
per-category attack multiplier, passed as one explicit immutable
configuration value. -/
structure Cfg where
  supported_ranks : List String
  armor_parts : List String
  weapon_types_melee : List String
  weapon_types_gun : List String
  hunting_horn : String
  bow : String
  weapon_multiplier : String → Rat

structure ItemCombo where
  result : Option String
  first : Option String
  second : Option String

structure LocationItem where
  item_lang : String
  item : String

structure LocationEntry where
  items : List LocationItem

structure Reward where
  condition_en : String
  rank : String
  item_en : String
  percentage : Int
deriving DecidableEq

structure MonsterEntry where
  name_en : String
  size : String
  hitzones : Bool
  weaknesses : Option (List String)
  rewards : Option (List Reward)

structure SkillLevel where
  level : Int

structure SkillEntry where
  name_en : String
  levels : List SkillLevel

structure ArmorSetEntry where
  name_en : String
  monster : Option String
  piece : String → Option String

structure ArmorEntry where
  id : Int
  name_en : String
  recipeItems : List (String × Int)
  skillPoints : List (String × Int)

structure BonusEntry where
  skills : List (String × Int)

structure WeaponRecipe where
  items : List (String × Int)
deriving DecidableEq

structure WeaponEntry where
  name_en : String
  weapon_type : String
  category : String
  craft : List WeaponRecipe
  sharpness : Bool
  notes : Bool
  bow : Bool
  ammo_config : Option String
  element1 : Option String
  element1_attack : Option Int
  element2 : Option String
  phial : Option String
  elderseal : Option String
  attack : Int

structure AmmoData where
  clip : Option Int
  rapid : Option Bool
  recoil : Option Int
  reload : Option String

inductive AmmoVal where
  | scalar
  | table (d : AmmoData)

structure AmmoEntry where
  fields : List (String × AmmoVal)

structure CharmEntry where
  name_en : String
  previous_en : Option String

/-- The merged dataset object: each collection is the insertion-ordered list
of its entries; per-language name views are functions from language code. -/
structure Mhdata where
  item_combinations : List ItemCombo
  itemNames : String → List String
  location_map : List LocationEntry
  monster_map : List (Nat × MonsterEntry)
  monster_reward_conditions : List String
  skill_map : List SkillEntry
  armorset_map : List ArmorSetEntry
  armor_map : List ArmorEntry
  armorset_bonus_map : List BonusEntry
  weapon_map : List WeaponEntry
  weapon_ammo_map : List (String × AmmoEntry)
  charm_map : List CharmEntry

/-- Modelled from the spec: DataMap.names("en") of the monster collection of
the Localized Record Index ("bidirectional id-name index per entity type,
queryable by language"). -/
def monsterNames (mh : Mhdata) : List String := mh.monster_map.map (fun p => p.2.name_en)

/-- Modelled from the spec: DataMap.names("en") of the skill collection. -/
def skillNames (mh : Mhdata) : List String := mh.skill_map.map SkillEntry.name_en

/-- Modelled from the spec: DataMap.names("en") of the charm collection. -/
def charmNames (mh : Mhdata) : List String := mh.charm_map.map CharmEntry.name_en

/-- Modelled from the spec: DataMap.id_of("en", name) on the armor
collection — the id of the first entry carrying the name, None otherwise. -/
def armorIdOf (mh : Mhdata) (name : String) : Option Int :=
  (mh.armor_map.find? (fun a => a.name_en == name)).map ArmorEntry.id

/-- Modelled from the spec: mhdata.util.ensure_warn (module mhdata.util is
not among the repository files given): when the condition fails a
warning-severity issue is printed; it is never added to the error
collection and never fails the run ("Warning (collected): ... printed but
never fail the run"). -/
def ensure_warn (cond : Prop) [Decidable cond] (msg : Msg) : List Msg :=
  if cond then [] else [msg]

/-- Python filter(None, xs) over optional strings: drops None and "". -/
def pyFilterTruthyStr (l : List (Option String)) : List String :=
  l.filterMap (fun o => match o with
    | none => none
    | some s => if s = "" then none else some s)

/-- Python truthiness of an optional integer: None and 0 are falsy. -/
def pyTruthyInt : Option Int → Bool
  | none => false
  | some v => !(v == 0)

/-! ## The validation rules (validate.py) -/

def validate_items (mh : Mhdata) : VOut :=
  { errors := mh.item_combinations.flatMap (fun combo =>
      (pyFilterTruthyStr [combo.result, combo.first, combo.second]).flatMap (fun item =>
        if item ∈ mh.itemNames "en" then [] else [Msg.itemComboMissing item]))
    warnings := [] }

def validate_locations (mh : Mhdata) : VOut :=
  { errors := mh.location_map.flatMap (fun loc =>
      loc.items.flatMap (fun it =>
        if it.item ∈ mh.itemNames it.item_lang then [] else [Msg.locationItemMissing it.item]))
    warnings := [] }

def validate_monsters (mh : Mhdata) : VOut :=
  let w1 := mh.monster_map.flatMap (fun p =>
    ensure_warn (p.2.hitzones = true) (Msg.monsterHitzonesWarn p.2.name_en))
  let second := mh.monster_map.map (fun p =>
    if p.2.size = "small" then (([] : List Msg), ([] : List Msg))
    else match p.2.weaknesses with
      | none => ([], [Msg.monsterWeaknessWarn p.2.name_en])
      | some wk =>
        ((if "normal" ∈ wk then [] else [Msg.monsterNormalWeakness p.2.name_en]), []))
  { errors := second.flatMap Prod.fst
    warnings := w1 ++ second.flatMap Prod.snd }

/-- The literal of validate.py line 90. The parentheses hold no comma, so
this is a plain string, not a tuple; the membership test
`condition not in uncapped_conditions` is therefore a substring test. -/
def uncapped_conditions : String := "Quest Reward (Bronze)"

def rewardKey (r : Reward) : String × String := (r.rank, r.condition_en)

def rewardLe (a b : Reward) : Bool := keyLe (rewardKey a) (rewardKey b)

/-- The ordering Python's sorted() applies under key (rank, condition_en). -/
def RewardRel (a b : Reward) : Prop := rewardLe a b = true

instance : DecidableRel RewardRel := fun a b => by
  unfold RewardRel
  infer_instance

instance : IsTotal Reward RewardRel :=
  ⟨fun a b => keyLe_total (rewardKey a) (rewardKey b)⟩

instance : IsTrans Reward RewardRel :=
  ⟨fun _ _ _ h1 h2 => keyLe_trans h1 h2⟩

/-- The reference checks of the per-reward loop of validate_monster_rewards
(lines 104-119): each failing check adds to the function-global error set
and clears the monster's valid flag. -/
def checkReward (c : Cfg) (mh : Mhdata) (monsterName : String)
    (acc : List Msg × Bool) (r : Reward) : List Msg × Bool :=
  let acc := if r.condition_en ∈ mh.monster_reward_conditions then acc
    else (pySetAdd acc.1 (Msg.invalidCondition r.condition_en monsterName), false)
  let acc := if r.item_en ∈ mh.itemNames "en" then acc
    else (pySetAdd acc.1 (Msg.rewardItemMissing r.item_en), false)
  if r.rank ∈ c.supported_ranks then acc
  else (pySetAdd acc.1 (Msg.unsupportedRank r.rank monsterName), false)

/-- The per-group percentage check (lines 128-139). -/
def checkGroup (monsterName : String) (k : String × String) (items : List Reward) : List Msg :=
  let percentage_sum := (items.map Reward.percentage).sum
  if pyStrIn k.2 uncapped_conditions = false then
    ensure_warn (percentage_sum = 100) (Msg.rewardsNotExact monsterName k.1 k.2)
  else
    ensure_warn (percentage_sum ≥ 100) (Msg.rewardsNotAtLeast monsterName k.1 k.2)

/-- Lines 125-139: sort the rewards by (rank, condition), group adjacent
equal keys, check each group's percentage sum. -/
def monsterRewardWarnings (monsterName : String) (rewards : List Reward) : List Msg :=
  let sorted_rewards := List.insertionSort RewardRel rewards
  (groupRuns rewardKey sorted_rewards).flatMap (fun p => checkGroup monsterName p.1 p.2)

/-- The whole per-monster body of validate_monster_rewards's main loop,
threading the function-global (error set, warnings printed) accumulator. -/
def monsterStep (c : Cfg) (mh : Mhdata) (acc : List Msg × List Msg)
    (entry : MonsterEntry) : List Msg × List Msg :=
  match entry.rewards with
  | none => acc
  | some rl =>
    let r := rl.foldl (checkReward c mh entry.name_en) (acc.1, true)
    if r.2 = false then (r.1, acc.2)
    else (r.1, acc.2 ++ monsterRewardWarnings entry.name_en rl)

def validate_monster_rewards (c : Cfg) (mh : Mhdata) : VOut :=
  let r := (mh.monster_map.map Prod.snd).foldl (monsterStep c mh) ([], [])
  { errors := r.1, warnings := r.2 }

/-- The skill-level loop body of validate_skills (lines 151-156): an
out-of-range value is reported and skipped, others enter the encountered
set. -/
def skillCheckStep (expected_max : Int) (skillName : String)
    (acc : List Msg × List Int) (lv : SkillLevel) : List Msg × List Int :=
  let v := lv.level
  if v < 0 ∨ v > expected_max then (acc.1 ++ [Msg.skillOutOfRange skillName v], acc.2)
  else (acc.1, pySetAdd acc.2 v)

/-- The per-skill body of validate_skills (lines 147-158). -/
def skillEntryErrors (sk : SkillEntry) : List Msg :=
  let expected_max : Int := sk.levels.length
  let r := sk.levels.foldl (skillCheckStep expected_max sk.name_en) ([], [])
  r.1 ++ (if r.2.length ≠ sk.levels.length then [Msg.skillMissingLevels sk.name_en] else [])

def validate_skills (mh : Mhdata) : VOut :=
  { errors := mh.skill_map.flatMap skillEntryErrors, warnings := [] }

/-- Modelled from the spec: datafn.iter_armor_recipe (module
mhdata.load.datafn is not among the repository files given) — the
(item name, quantity) pairs of an armor entry's crafting recipe. -/
def iter_armor_recipe (a : ArmorEntry) : List (String × Int) := a.recipeItems

/-- Modelled from the spec: datafn.iter_skill_points — the
(skill name, points) pairs of an armor entry. -/
def iter_skill_points (a : ArmorEntry) : List (String × Int) := a.skillPoints

/-- Modelled from the spec: datafn.iter_setbonus_skills — the
(skill name, points) pairs of an armor set bonus entry. -/
def iter_setbonus_skills (b : BonusEntry) : List (String × Int) := b.skills

/-- Modelled from the spec: datafn.iter_weapon_recipe — the
(item name, quantity) pairs of one weapon recipe. -/
def iter_weapon_recipe (r : WeaponRecipe) : List (String × Int) := r.items

/-- The per-armorset body of validate_armor (lines 170-194), threading the
(errors, warnings, encountered armor ids) state. -/
def armorsetStep (c : Cfg) (mh : Mhdata) (acc : List Msg × List Msg × List Int)
    (setentry : ArmorSetEntry) : List Msg × List Msg × List Int :=
  let setname := setentry.name_en
  let e1 : List Msg := match setentry.monster with
    | none => []
    | some m =>
      if m ≠ "" ∧ m ∉ monsterNames mh then [Msg.armorsetInvalidMonster setname m] else []
  let armor_names := pyFilterTruthyStr (c.armor_parts.map setentry.piece)
  let w1 : List Msg := if armor_names = [] then [Msg.armorsetNoArmorWarn setname] else []
  let inner := armor_names.foldl (fun (a : List Msg × List Int) armor_name =>
    match armorIdOf mh armor_name with
    | none => (a.1 ++ [Msg.armorsetInvalidArmor setname armor_name], a.2)
    | some i =>
      if i = 0 then (a.1 ++ [Msg.armorsetInvalidArmor setname armor_name], a.2)
      else if i ∈ a.2 then (a.1 ++ [Msg.armorsetDupArmor setname armor_name], a.2)
      else (a.1, pySetAdd a.2 i)) ([], acc.2.2)
  (acc.1 ++ e1 ++ inner.1, acc.2.1 ++ w1, inner.2)

def validate_armor (c : Cfg) (mh : Mhdata) : VOut :=
  let r := mh.armorset_map.foldl (armorsetStep c mh) ([], [], [])
  let encountered := r.2.2
  let e2 := mh.armor_map.flatMap (fun armor_entry =>
    (if armor_entry.id ∈ encountered then [] else [Msg.armorNotInSet armor_entry.name_en])
    ++ (iter_armor_recipe armor_entry).flatMap (fun it =>
         if it.1 ∈ mh.itemNames "en" then [] else [Msg.armorItemMissing it.1])
    ++ (iter_skill_points armor_entry).flatMap (fun sp =>
         if sp.1 ∈ skillNames mh then [] else [Msg.armorSkillMissing sp.1]))
  let e3 := mh.armorset_bonus_map.flatMap (fun bonus =>
    (iter_setbonus_skills bonus).flatMap (fun sp =>
      if sp.1 ∈ skillNames mh then [] else [Msg.bonusSkillMissing sp.1]))
  { errors := r.1 ++ e2 ++ e3, warnings := r.2.1 }

/-- The recipe checks of validate_weapons (lines 226-234). -/
def weaponRecipeErrors (mh : Mhdata) (e : WeaponEntry) : List Msg :=
  if e.category ≠ "Kulve" then
    (if e.craft = [] then [Msg.weaponNoRecipes e.name_en]
     else e.craft.flatMap (fun recipe =>
       (iter_weapon_recipe recipe).flatMap (fun it =>
         if it.1 ∈ mh.itemNames "en" then []
         else [Msg.weaponInvalidRecipeItem e.name_en it.1])))
  else []

/-- The bowgun ammo-config check of validate_weapons (lines 242-246): a
missing (falsy) ammo_config is reported as missing; only a present one is
looked up in the ammo table. -/
def weaponAmmoErrors (c : Cfg) (mh : Mhdata) (e : WeaponEntry) : List Msg :=
  if e.weapon_type ∈ c.weapon_types_gun then
    (if pyTruthyStr e.ammo_config = false then [Msg.weaponMissingAmmo e.name_en]
     else if (e.ammo_config.getD "") ∈ mh.weapon_ammo_map.map Prod.fst then []
     else [Msg.weaponInvalidAmmo e.name_en])
  else []

/-- The elderseal/dragon co-occurrence checks (lines 251-257). -/
def weaponEldersealErrors (e : WeaponEntry) : List Msg :=
  let has_elderseal := e.elderseal.isSome
  let is_dragon :=
    e.element1 = some "Dragon" ∨ e.element2 = some "Dragon" ∨ e.phial = some "dragon"
  (if has_elderseal = true ∧ ¬ is_dragon then [Msg.weaponEldersealNoDragon e.name_en] else [])
  ++ (if is_dragon ∧ has_elderseal = false then [Msg.weaponDragonNoElderseal e.name_en] else [])

/-- The per-weapon error checks of validate_weapons (lines 222-257), in
source order. -/
def weaponEntryErrors (c : Cfg) (mh : Mhdata) (e : WeaponEntry) : List Msg :=
  weaponRecipeErrors mh e
  ++ (if e.weapon_type ∈ c.weapon_types_melee ∧ e.sharpness = false
      then [Msg.weaponNoSharpness e.name_en] else [])
  ++ (if e.weapon_type = c.hunting_horn ∧ e.notes = false
      then [Msg.weaponNoNotes e.name_en] else [])
  ++ (if e.weapon_type = c.bow ∧ e.bow = false
      then [Msg.weaponMissingBow e.name_en] else [])
  ++ weaponAmmoErrors c mh e
  ++ (if pyTruthyStr e.element1 = true ∧ e.element1_attack.getD 0 = 0
      then [Msg.weaponElementNoAttack e.name_en] else [])
  ++ weaponEldersealErrors e

/-- An exact rational: the model of Python's int(x) == x for the derived
true-attack value. -/
def ratIsInt (q : Rat) : Bool := q.den == 1

/-- The per-weapon warning print of lines 259-261. -/
def weaponEntryWarnings (c : Cfg) (e : WeaponEntry) : List Msg :=
  let true_attack := (e.attack : Rat) / c.weapon_multiplier e.weapon_type
  if ratIsInt true_attack = false then [Msg.weaponSuspiciousAttack e.name_en] else []

/-- The ammo-table loop of validate_weapons (lines 264-281). -/
def ammoEntryErrors (config : String) (entry : AmmoEntry) : List Msg :=
  entry.fields.flatMap (fun kv =>
    match kv.2 with
    | AmmoVal.scalar => []
    | AmmoVal.table d =>
      match d.clip with
      | none => []
      | some clip =>
        if clip = 0 then
          (if d.rapid = some true then [Msg.ammoInvalidRapid config kv.1] else [])
          ++ (if pyTruthyInt d.recoil = true then [Msg.ammoInvalidRecoil config kv.1] else [])
          ++ (if pyTruthyStr d.reload = true then [Msg.ammoInvalidReload config kv.1] else [])
        else
          (if d.recoil.isSome ∧ pyTruthyInt d.recoil = false
           then [Msg.ammoMissingRecoil config kv.1] else [])
          ++ (if pyTruthyStr d.reload = false then [Msg.ammoMissingReload config kv.1] else []))

def validate_weapons (c : Cfg) (mh : Mhdata) : VOut :=
  { errors := mh.weapon_map.flatMap (weaponEntryErrors c mh)
      ++ mh.weapon_ammo_map.flatMap (fun p => ammoEntryErrors p.1 p.2)
    warnings := mh.weapon_map.flatMap (weaponEntryWarnings c) }

def validate_charms (mh : Mhdata) : VOut :=
  { errors := mh.charm_map.flatMap (fun entry =>
      match entry.previous_en with
      | none => []
      | some prev => if prev ∈ charmNames mh then [] else [Msg.charmPreviousMissing prev])
    warnings := [] }

/-- The error list the aggregator accumulates over the eight rules, in
source order (validate.py lines 12-20). -/
def validateAllErrors (c : Cfg) (mh : Mhdata) : List Msg :=
  (validate_items mh).errors ++ (validate_locations mh).errors
    ++ (validate_monsters mh).errors ++ (validate_monster_rewards c mh).errors
    ++ (validate_skills mh).errors ++ (validate_armor c mh).errors
    ++ (validate_weapons c mh).errors ++ (validate_charms mh).errors

/-- validate (lines 10-27): runs all rules, prints the collected errors, and
returns success exactly when the collected error list is empty. -/
def validate (c : Cfg) (mh : Mhdata) : Bool :=
  if validateAllErrors c mh ≠ [] then false else true

/-! ## mhdata/merge/binary/load.py — weapon tree assembly -/

/-- The fields of a decoded weapon binary record that load_tree reads. -/
structure WBinary where
  id : Nat
  gmd_name_index : Nat
  tree_id : Nat
deriving DecidableEq

/-- A crafting side-table entry (eq_crt); only the primary ingredient
quantity is consulted by load_tree. -/
structure EqCrtEntry where
  item1_qty : Nat
deriving DecidableEq

/-- An upgrade side-table entry (eq_cus): its weapon id, primary ingredient
quantity and the four descendant slots (positions into the upgrade table
itself). -/
structure EqCusEntry where
  equip_id : Nat
  item1_qty : Nat
  descendant1_idx : Nat
  descendant2_idx : Nat
  descendant3_idx : Nat
  descendant4_idx : Nat
deriving DecidableEq

/-- WeaponDataNode, arena-style: the parent back-reference and the owned
child sequence are stored as ids into the weapon map. -/
structure WNode where
  id : Nat
  wtype : String
  name : String
  tree : Option String
  craft : Option EqCrtEntry
  upgrade : Option EqCusEntry
  parent : Option Nat
  children : List Nat
deriving DecidableEq

/-- What load_tree reads for one weapon type: decoded text blocks (English
values), the per-type recipe maps WeaponDataLoader.__init__ built, and the
raw upgrade table that descendant indices address by position. -/
structure LoadCtx where
  weaponText : Nat → String
  weaponTrees : Nat → String
  craftMap : Nat → Option EqCrtEntry
  upgradeMap : Nat → Option EqCusEntry
  upgradeData : List EqCusEntry
  wtype : String

/-- The weapon map: a Python dict id -> node. -/
abbrev WMap := List (Nat × WNode)

/-- weapon_descendants: a Python dict id -> the four descendant slots. -/
abbrev DescMap := List (Nat × (Nat × Nat × Nat × Nat))

/-- One iteration of the first pass of load_tree (lines 271-308): descendant
slots are recorded from the upgrade entry BEFORE the zero-quantity rule
clears it, and before the invalid-name skip. -/
def firstPassStep (ctx : LoadCtx) (st : WMap × DescMap) (binary : WBinary) : WMap × DescMap :=
  let name := ctx.weaponText binary.gmd_name_index
  let craft_recipe := ctx.craftMap binary.id
  let upgrade_recipe := ctx.upgradeMap binary.id
  let craft_recipe := match craft_recipe with
    | some cr => if cr.item1_qty = 0 then none else some cr
    | none => none
  let descs := match upgrade_recipe with
    | some u => pyDictSet st.2 binary.id
        (u.descendant1_idx, u.descendant2_idx, u.descendant3_idx, u.descendant4_idx)
    | none => st.2
  let upgrade_recipe := match upgrade_recipe with
    | some u => if u.item1_qty = 0 then none else some u
    | none => none
  if name = "" ∨ name = "Invalid Message" then (st.1, descs)
  else
    let treename := if binary.tree_id ≠ 0 then some (ctx.weaponTrees binary.tree_id) else none
    (pyDictSet st.1 binary.id
      { id := binary.id, wtype := ctx.wtype, name := name, tree := treename,
        craft := craft_recipe, upgrade := upgrade_recipe, parent := none, children := [] },
     descs)

/-- The first pass of load_tree over all weapon binaries. -/
def firstPass (ctx : LoadCtx) (binaries : List WBinary) : WMap × DescMap :=
  binaries.foldl (firstPassStep ctx) ([], [])

/-- child.parent = self: the first statement of WeaponDataNode.add_child. -/
def setParent (wmap : WMap) (pid cid : Nat) : WMap :=
  match pyLookup wmap cid with
  | some cnode => pyDictSet wmap cid { cnode with parent := some pid }
  | none => wmap

/-- self.children.append(child): the second statement of add_child. -/
def appendChild (wmap : WMap) (pid cid : Nat) : WMap :=
  match pyLookup wmap pid with
  | some pnode => pyDictSet wmap pid { pnode with children := pnode.children ++ [cid] }
  | none => wmap

/-- WeaponDataNode.add_child: set the child's parent back-reference, then
append the child to the parent's child sequence. -/
def addChild (wmap : WMap) (pid cid : Nat) : WMap :=
  appendChild (setParent wmap pid cid) pid cid

/-- One descendant slot of the second pass (lines 319-325): slot 0 is empty;
a nonzero slot resolves through the upgrade table to a weapon id and its
node; failure to resolve is the fatal construction error (None). -/
def attachDescendant (ctx : LoadCtx) (pid : Nat) (wmap : Option WMap) (didx : Nat) :
    Option WMap :=
  match wmap with
  | none => none
  | some m =>
    if didx = 0 then some m
    else match ctx.upgradeData[didx]? with
      | none => none
      | some uentry =>
        match pyLookup m uentry.equip_id with
        | none => none
        | some _ => some (addChild m pid uentry.equip_id)

/-- The per-weapon body of the second pass of load_tree (lines 312-330). -/
def processWeapon (ctx : LoadCtx) (descs : DescMap) (wmap : WMap) (wid : Nat) : Option WMap :=
  match pyLookup descs wid with
  | none => some wmap
  | some (d1, d2, d3, d4) =>
    if d1 = 0 ∧ d2 = 0 ∧ d3 = 0 ∧ d4 = 0 then some wmap
    else
      match [d1, d2, d3, d4].foldl (attachDescendant ctx wid) (some wmap) with
      | none => none
      | some m4 =>
        if d1 = 0 then some m4
        else
          match pyLookup m4 wid with
          | none => none
          | some wnode =>
            match wnode.children with
            | [] => none
            | c0 :: _ =>
              match pyLookup m4 c0 with
              | none => none
              | some cnode => some (pyDictSet m4 c0 { cnode with tree := wnode.tree })

/-- The second pass of load_tree: iterate the weapon map's insertion order,
threading the mutated map; a failed resolution aborts the assembly. -/
def secondPass (ctx : LoadCtx) (descs : DescMap) (wmap : WMap) : Option WMap :=
  (wmap.map Prod.fst).foldl
    (fun acc wid => acc.bind (fun m => processWeapon ctx descs m wid)) (some wmap)

/-- WeaponDataLoader.load_tree, up to the WeaponTree wrapper construction. -/
def load_tree (ctx : LoadCtx) (binaries : List WBinary) : Option WMap :=
  let fp := firstPass ctx binaries
  secondPass ctx fp.2 fp.1

/-! ## mhdata/merge/binary/load.py — armor series assembly -/

/-- The fields of a decoded armor binary record (am_dat) that
load_armor_series reads. -/
structure AmDatEntry where
  id : Nat
  set_id : Nat
  type : Nat
  gender : Nat
  order : Nat
  variant : Nat
  equip_slot : Nat
  gmd_name_index : Nat
deriving DecidableEq

/-- ArmorData: a kept armor binary with its resolved name and recipe. -/
structure ArmorData where
  binary : AmDatEntry
  name_en : String
  recipe : EqCrtEntry
deriving DecidableEq

def ArmorData.order (a : ArmorData) : Nat := a.binary.order

/-- ArmorData.part: the fixed equip-slot enumeration of lines 348-350. -/
def ArmorData.part (a : ArmorData) : String :=
  (["head", "chest", "arms", "waist", "legs", "charm"].get? a.binary.equip_slot).getD ""

/-- ArmorData.rank (lines 353-356): variant 0 is low rank, all others high. -/
def ArmorData.rank (a : ArmorData) : String :=
  if a.binary.variant = 0 then "LR" else "HR"

structure ArmorSetData where
  name_en : String
  armors : List ArmorData
deriving DecidableEq

/-- ArmorSetData.order = min(self.armors, key=lambda a: a.order).order:
Python min keeps the earliest minimal element; the source raises on an
empty sequence (groups are built non-empty), modelled by a junk value. -/
def ArmorSetData.order (s : ArmorSetData) : Nat :=
  match s.armors with
  | [] => 0
  | a :: rest => (rest.foldl (fun acc x => if x.order < acc.order then x else acc) a).order

/-- ArmorSetData.rank = self.armors[0].rank (junk on the empty sequence,
where the source would raise). -/
def ArmorSetData.rank (s : ArmorSetData) : String :=
  match s.armors with
  | [] => ""
  | a :: _ => a.rank

/-- ArmorSetData.rank_order (lines 374-378). -/
def ArmorSetData.rank_order (s : ArmorSetData) : Nat :=
  if s.rank = "LR" then 0 else 1

/-- The ascending sort key of load_armor_series line 427:
(rank_order, order) compared lexicographically. -/
def armorSetLe (a b : ArmorSetData) : Bool :=
  decide (a.rank_order < b.rank_order)
    || (decide (a.rank_order = b.rank_order) && decide (a.order ≤ b.order))

def ArmorSetRel (a b : ArmorSetData) : Prop := armorSetLe a b = true

instance : DecidableRel ArmorSetRel := fun a b => by
  unfold ArmorSetRel
  infer_instance

instance : IsTotal ArmorSetData ArmorSetRel := by
  constructor
  intro a b
  unfold ArmorSetRel armorSetLe
  rcases Nat.lt_trichotomy a.rank_order b.rank_order with h | h | h
  · left; simp [h]
  · rcases Nat.le_total a.order b.order with h2 | h2
    · left; simp [h, h2]
    · right; simp [h, h2]
  · right; simp [h]

instance : IsTrans ArmorSetData ArmorSetRel := by
  constructor
  intro a b c h1 h2
  unfold ArmorSetRel armorSetLe at h1 h2 ⊢
  simp only [Bool.or_eq_true, Bool.and_eq_true, decide_eq_true_eq] at h1 h2 ⊢
  rcases h1 with h1 | ⟨h1e, h1o⟩
  · rcases h2 with h2 | ⟨h2e, h2o⟩
    · exact Or.inl (Nat.lt_trans h1 h2)
    · exact Or.inl (h2e ▸ h1)
  · rcases h2 with h2 | ⟨h2e, h2o⟩
    · exact Or.inl (h1e ▸ h2)
    · exact Or.inr ⟨h1e.trans h2e, Nat.le_trans h1o h2o⟩

/-- armor_by_setid.setdefault(set_id, []); armor_by_setid[set_id].append(a). -/
def addToGroup (m : List (Nat × List ArmorData)) (k : Nat) (a : ArmorData) :
    List (Nat × List ArmorData) :=
  match m with
  | [] => [(k, [a])]
  | (k0, g) :: rest => if k0 = k then (k0, g ++ [a]) :: rest else (k0, g) :: addToGroup rest k a

/-- The decoded inputs of load_armor_series: armor name text (None models a
missing or empty dict), set name text, and the crafting side-table keyed by
armor id. -/
structure ArmorInputs where
  armorText : Nat → Option String
  armorSetText : Nat → String
  craftData : Nat → Option EqCrtEntry
  binaries : List AmDatEntry

/-- Lines 390-425 of load_armor_series: filter records by the inclusion
rules, group them by set id (first-seen order), and assemble one
ArmorSetData per group. -/
def armorSetsAssembled (inp : ArmorInputs) : List ArmorSetData :=
  let armor_by_setid := inp.binaries.foldl (fun m ab =>
    match inp.armorText ab.gmd_name_index with
    | none => m
    | some nm =>
      if nm = "" then m
      else if ab.set_id = 0 then m
      else if ab.type ≠ 0 then m
      else if ab.gender = 0 then m
      else if ab.order = 0 then m
      else match inp.craftData ab.id with
        | none => m
        | some cr => addToGroup m ab.set_id ⟨ab, nm, cr⟩) []
  armor_by_setid.map (fun p => ArmorSetData.mk (inp.armorSetText p.1) p.2)

/-- load_armor_series (lines 380-429): assemble the sets, sort them by
(rank_order, order), and key the result by English set name (a Python dict
comprehension: a repeated name overwrites the value kept at the first
occurrence's position). -/
def load_armor_series (inp : ArmorInputs) : List (String × ArmorSetData) :=
  let sorted := List.insertionSort ArmorSetRel (armorSetsAssembled inp)
  sorted.foldl (fun m s => pyDictSet m s.name_en s) []

/-! ## Claim C2 — the aggregator -/

/-- Claim C2: validate runs every registered rule unconditionally — its
collected error list is the concatenation of all eight rules' error lists,
no rule being skipped because of an earlier rule's issues — and it returns
False exactly when at least one rule produced an error-severity issue;
warning-severity issues are never part of the collected error list, so they
alone never fail the run. -/
theorem claim_C2_validate_aggregator (c : Cfg) (mh : Mhdata) :
    (validateAllErrors c mh
      = (validate_items mh).errors ++ (validate_locations mh).errors
        ++ (validate_monsters mh).errors ++ (validate_monster_rewards c mh).errors
        ++ (validate_skills mh).errors ++ (validate_armor c mh).errors
        ++ (validate_weapons c mh).errors ++ (validate_charms mh).errors)
    ∧ (validate c mh = false ↔
        ¬ ((validate_items mh).errors = [] ∧ (validate_locations mh).errors = []
          ∧ (validate_monsters mh).errors = [] ∧ (validate_monster_rewards c mh).errors = []
          ∧ (validate_skills mh).errors = [] ∧ (validate_armor c mh).errors = []
          ∧ (validate_weapons c mh).errors = [] ∧ (validate_charms mh).errors = [])) := by
  refine ⟨rfl, ?_⟩
  have hv : validate c mh = false ↔ ¬ (validateAllErrors c mh = []) := by
    unfold validate
    by_cases he : validateAllErrors c mh = []
    · simp [he]
    · simp [he]
  rw [hv]
  apply not_congr
  unfold validateAllErrors
  simp only [List.append_eq_nil]
  tauto

/-! ## Claim C8 — the uncapped-condition test is substring containment -/

theorem pyStrContains_iff (sub : List Char) :
    ∀ l : List Char, pyStrContains sub l = true ↔ sub <:+: l := by
  intro l
  induction l with
  | nil =>
    simp only [pyStrContains, List.isEmpty_iff]
    constructor
    · intro h; simp [h]
    · intro h; simpa using List.eq_nil_of_infix_nil h
  | cons c rest ih =>
    simp only [pyStrContains, Bool.or_eq_true, ih, List.isPrefixOf_iff_prefix]
    rw [List.infix_cons_iff]

/-- Claim C8: the uncapped test of validate_monster_rewards is substring
containment against the string "Quest Reward (Bronze)" (the parentheses
hold no comma, so the literal is a string, not a tuple): pyStrIn agrees
with contiguous-sublist containment of the condition's characters, strict
substrings such as "Bronze" and "Quest Reward" also pass while unrelated
conditions do not, and every group whose condition passes is checked with
the at-least-100 rule instead of the exactly-100 rule. -/
theorem claim_C8_uncapped_substring :
    (∀ cond : String, pyStrIn cond uncapped_conditions = true
        ↔ cond.data <:+: uncapped_conditions.data)
    ∧ pyStrIn "Bronze" uncapped_conditions = true
    ∧ pyStrIn "Quest Reward" uncapped_conditions = true
    ∧ pyStrIn "Carve" uncapped_conditions = false
    ∧ (∀ (monsterName rank cond : String) (items : List Reward),
        pyStrIn cond uncapped_conditions = true →
          checkGroup monsterName (rank, cond) items
            = ensure_warn ((items.map Reward.percentage).sum ≥ 100)
                (Msg.rewardsNotAtLeast monsterName rank cond)) := by
  refine ⟨fun cond => pyStrContains_iff cond.data uncapped_conditions.data,
    by decide, by decide, by decide, ?_⟩
  intro monsterName rank cond items h
  unfold checkGroup
  rw [if_neg (by simp [h])]

/-! ## Claims C3 and C4 — skill level validation -/

/-- The declared level values of a skill entry. -/
def levelValues (sk : SkillEntry) : List Int := sk.levels.map SkillLevel.level

theorem skillFold_spec (em : Int) (nm : String) :
    ∀ (lvls : List SkillLevel) (errs : List Msg) (enc : List Int),
      lvls.foldl (skillCheckStep em nm) (errs, enc)
        = (errs ++ (lvls.filter (fun lv => decide (lv.level < 0 ∨ lv.level > em))).map
              (fun lv => Msg.skillOutOfRange nm lv.level),
           ((lvls.filter (fun lv => !decide (lv.level < 0 ∨ lv.level > em))).map
              SkillLevel.level).foldl pySetAdd enc) := by
  intro lvls
  induction lvls with
  | nil => intro errs enc; simp
  | cons lv tl ih =>
    intro errs enc
    simp only [List.foldl_cons]
    by_cases h : lv.level < 0 ∨ lv.level > em
    · rw [show skillCheckStep em nm (errs, enc) lv
          = (errs ++ [Msg.skillOutOfRange nm lv.level], enc) from by
            unfold skillCheckStep; rw [if_pos h]]
      have hb : decide (lv.level < 0 ∨ lv.level > em) = true := decide_eq_true h
      rw [ih]
      simp only [List.filter_cons, hb, Prod.mk.injEq]
      simp
    · rw [show skillCheckStep em nm (errs, enc) lv = (errs, pySetAdd enc lv.level) from by
        unfold skillCheckStep; rw [if_neg h]]
      have hb : decide (lv.level < 0 ∨ lv.level > em) = false := decide_eq_false h
      rw [ih]
      simp only [List.filter_cons, hb, Prod.mk.injEq]
      simp

theorem pySetAdd_fold_length_le {α : Type} [DecidableEq α] :
    ∀ (l acc : List α), (l.foldl pySetAdd acc).length ≤ acc.length + l.length := by
  intro l
  induction l with
  | nil => intro acc; simp
  | cons a tl ih =>
    intro acc
    simp only [List.foldl_cons, List.length_cons]
    have h1 := ih (pySetAdd acc a)
    have h2 : (pySetAdd acc a).length ≤ acc.length + 1 := by
      unfold pySetAdd; split
      · omega
      · simp
    omega

theorem pySetAdd_fold_length_eq {α : Type} [DecidableEq α] :
    ∀ (l acc : List α), acc.Nodup →
      ((l.foldl pySetAdd acc).length = acc.length + l.length ↔ (acc ++ l).Nodup) := by
  intro l
  induction l with
  | nil => intro acc h; simp [h]
  | cons a tl ih =>
    intro acc hnd
    simp only [List.foldl_cons, List.length_cons]
    by_cases ha : a ∈ acc
    · rw [show pySetAdd acc a = acc from by unfold pySetAdd; rw [if_pos ha]]
      constructor
      · intro h
        have := pySetAdd_fold_length_le tl acc
        omega
      · intro h
        rcases List.nodup_append.mp h with ⟨_, _, hdisj⟩
        exact absurd (hdisj ha (List.mem_cons_self a tl)) (fun hf => hf)
    · rw [show pySetAdd acc a = acc ++ [a] from by unfold pySetAdd; rw [if_neg ha]]
      have hnd' : (acc ++ [a]).Nodup := by
        rw [List.nodup_append]
        exact ⟨hnd, List.nodup_singleton a, fun x hx hx2 => by
          simp only [List.mem_singleton] at hx2
          exact ha (hx2 ▸ hx)⟩
      have := ih (acc ++ [a]) hnd'
      rw [List.length_append, List.length_singleton] at this
      rw [show acc.length + 1 + tl.length = acc.length + (tl.length + 1) from by omega] at this
      rw [this, List.append_assoc, List.singleton_append]

/-- Claim C3 (amended): a skill yields zero issues if and only if every
declared level value lies between 0 and N (N the number of declared levels)
AND the declared values are pairwise distinct. The source's lower bound is
0, not 1, so N distinct values drawn from {0..N} — for example [0, 1] with
N = 2 — also pass. -/
theorem claim_C3_skill_levels (sk : SkillEntry) :
    skillEntryErrors sk = [] ↔
      ((∀ v ∈ levelValues sk, 0 ≤ v ∧ v ≤ (sk.levels.length : Int))
        ∧ (levelValues sk).Nodup) := by
  have hunfold : skillEntryErrors sk
      = (sk.levels.foldl (skillCheckStep (sk.levels.length : Int) sk.name_en) ([], [])).1
        ++ (if (sk.levels.foldl (skillCheckStep (sk.levels.length : Int) sk.name_en)
                ([], [])).2.length ≠ sk.levels.length
            then [Msg.skillMissingLevels sk.name_en] else []) := rfl
  rw [hunfold, skillFold_spec, List.nil_append, List.append_eq_nil]
  constructor
  · rintro ⟨hmap, hif⟩
    have hfil0 : sk.levels.filter
        (fun lv => decide (lv.level < 0 ∨ lv.level > (sk.levels.length : Int))) = [] :=
      List.map_eq_nil_iff.mp hmap
    have hin : ∀ lv ∈ sk.levels, 0 ≤ lv.level ∧ lv.level ≤ (sk.levels.length : Int) := by
      intro lv hlv
      have hd := List.filter_eq_nil_iff.mp hfil0 lv hlv
      simp only [decide_eq_true_eq] at hd
      omega
    have hfilter : sk.levels.filter
        (fun lv => !decide (lv.level < 0 ∨ lv.level > (sk.levels.length : Int))) = sk.levels := by
      apply List.filter_eq_self.mpr
      intro lv hlv
      have h3 := hin lv hlv
      rw [decide_eq_false (show ¬ (lv.level < 0 ∨ lv.level > (sk.levels.length : Int)) from
        by omega)]
      rfl
    rw [hfilter] at hif
    have hlen : ((sk.levels.map SkillLevel.level).foldl pySetAdd ([] : List Int)).length
        = sk.levels.length := by
      by_contra hne
      rw [if_pos hne] at hif
      exact List.cons_ne_nil _ _ hif
    have hnd := (pySetAdd_fold_length_eq (sk.levels.map SkillLevel.level) []
      List.nodup_nil).mp (by simpa using hlen)
    refine ⟨?_, by simpa [levelValues] using hnd⟩
    intro v hv
    obtain ⟨lv, hlv, hveq⟩ := List.mem_map.mp hv
    exact hveq ▸ hin lv hlv
  · rintro ⟨h1, h2⟩
    have hin : ∀ lv ∈ sk.levels, 0 ≤ lv.level ∧ lv.level ≤ (sk.levels.length : Int) := by
      intro lv hlv
      exact h1 lv.level (List.mem_map.mpr ⟨lv, hlv, rfl⟩)
    have hfil0 : sk.levels.filter
        (fun lv => decide (lv.level < 0 ∨ lv.level > (sk.levels.length : Int))) = [] := by
      apply List.filter_eq_nil_iff.mpr
      intro lv hlv
      have h3 := hin lv hlv
      simp only [decide_eq_true_eq]
      omega
    have hfilter : sk.levels.filter
        (fun lv => !decide (lv.level < 0 ∨ lv.level > (sk.levels.length : Int))) = sk.levels := by
      apply List.filter_eq_self.mpr
      intro lv hlv
      have h3 := hin lv hlv
      rw [decide_eq_false (show ¬ (lv.level < 0 ∨ lv.level > (sk.levels.length : Int)) from
        by omega)]
      rfl
    refine ⟨by rw [hfil0]; rfl, ?_⟩
    rw [hfilter]
    have hlen : ((sk.levels.map SkillLevel.level).foldl pySetAdd ([] : List Int)).length
        = sk.levels.length := by
      have h4 := (pySetAdd_fold_length_eq (sk.levels.map SkillLevel.level) []
        List.nodup_nil).mpr (by simpa [levelValues] using h2)
      simpa using h4
    rw [if_neg (by simp [hlen])]

/-- Claim C3 counterexample: the skill with declared levels [0, 1] (N = 2)
yields zero issues although its multiset of levels is not {1, 2}. -/
theorem claim_C3_counterexample :
    skillEntryErrors ⟨"S", [⟨0⟩, ⟨1⟩]⟩ = []
    ∧ ¬ (levelValues ⟨"S", [⟨0⟩, ⟨1⟩]⟩).Perm ([1, 2] : List Int) := by
  constructor
  · decide
  · intro h
    have h0 : (0 : Int) ∈ ([1, 2] : List Int) := h.mem_iff.mp (by decide)
    simp at h0

/-- Claim C4 (amended): levels [1,2,3] yield zero issues; levels [1,3]
(N = 2) yield exactly TWO errors — the out-of-range error for level 3 and
the missing-effect-levels error — not one. -/
theorem claim_C4_skill_examples :
    skillEntryErrors ⟨"S", [⟨1⟩, ⟨2⟩, ⟨3⟩]⟩ = []
    ∧ skillEntryErrors ⟨"S", [⟨1⟩, ⟨3⟩]⟩
        = [Msg.skillOutOfRange "S" 3, Msg.skillMissingLevels "S"] := by decide

/-- Claim C4 counterexample: for levels [1,3] the error list has length 2,
not 1 — an out-of-range error accompanies the missing-levels error. -/
theorem claim_C4_counterexample :
    (skillEntryErrors ⟨"S", [⟨1⟩, ⟨3⟩]⟩).length = 2
    ∧ skillEntryErrors ⟨"S", [⟨1⟩, ⟨3⟩]⟩
        ≠ [Msg.skillMissingLevels "S"] := by decide

/-! ## Claims C9 and C1 — monster reward validation -/

/-- The conjunction of the three reference checks for one reward entry
(condition resolvable, item resolvable, rank supported). -/
def rewardChecksPass (c : Cfg) (mh : Mhdata) (r : Reward) : Bool :=
  decide (r.condition_en ∈ mh.monster_reward_conditions)
    && decide (r.item_en ∈ mh.itemNames "en")
    && decide (r.rank ∈ c.supported_ranks)

theorem checkReward_snd (c : Cfg) (mh : Mhdata) (nm : String) (acc : List Msg × Bool)
    (r : Reward) : (checkReward c mh nm acc r).2 = (acc.2 && rewardChecksPass c mh r) := by
  unfold checkReward rewardChecksPass
  by_cases h1 : r.condition_en ∈ mh.monster_reward_conditions
    <;> by_cases h2 : r.item_en ∈ mh.itemNames "en"
    <;> by_cases h3 : r.rank ∈ c.supported_ranks
    <;> simp [h1, h2, h3]

theorem foldl_checkReward_snd (c : Cfg) (mh : Mhdata) (nm : String) :
    ∀ (rl : List Reward) (acc : List Msg × Bool),
      (rl.foldl (checkReward c mh nm) acc).2 = (acc.2 && rl.all (rewardChecksPass c mh)) := by
  intro rl
  induction rl with
  | nil => intro acc; simp
  | cons r tl ih =>
    intro acc
    simp only [List.foldl_cons, List.all_cons]
    rw [ih, checkReward_snd]
    simp [Bool.and_assoc]

theorem foldl_checkReward_of_valid (c : Cfg) (mh : Mhdata) (nm : String) :
    ∀ (rl : List Reward) (acc : List Msg × Bool),
      (∀ r ∈ rl, rewardChecksPass c mh r = true) →
      rl.foldl (checkReward c mh nm) acc = acc := by
  intro rl
  induction rl with
  | nil => intro acc _; rfl
  | cons r tl ih =>
    intro acc hall
    simp only [List.foldl_cons]
    have hr := hall r (List.mem_cons_self _ _)
    have hstep : checkReward c mh nm acc r = acc := by
      unfold checkReward
      unfold rewardChecksPass at hr
      simp only [Bool.and_eq_true, decide_eq_true_eq] at hr
      simp [hr.1.1, hr.1.2, hr.2]
    rw [hstep]
    exact ih acc (fun r2 hrm => hall r2 (List.mem_cons_of_mem _ hrm))

/-- Claim C9: when any reward entry of a monster has an unresolvable
condition name, an unresolvable item name or an unsupported rank, the
percentage-sum pass is skipped wholesale for that monster: its step
contributes no warning-severity issue (and the percentage checks are the
only producers of such issues in this rule). -/
theorem claim_C9_invalid_refs_skip_sums (c : Cfg) (mh : Mhdata)
    (acc : List Msg × List Msg) (entry : MonsterEntry) (rl : List Reward) (r0 : Reward)
    (hrl : entry.rewards = some rl) (hr0 : r0 ∈ rl)
    (hbad : r0.condition_en ∉ mh.monster_reward_conditions
        ∨ r0.item_en ∉ mh.itemNames "en" ∨ r0.rank ∉ c.supported_ranks) :
    (monsterStep c mh acc entry).2 = acc.2 := by
  have hfail : rl.all (rewardChecksPass c mh) = false := by
    rw [Bool.eq_false_iff]
    intro hall
    have hp := List.all_eq_true.mp hall r0 hr0
    unfold rewardChecksPass at hp
    simp only [Bool.and_eq_true, decide_eq_true_eq] at hp
    rcases hbad with h | h | h
    · exact h hp.1.1
    · exact h hp.1.2
    · exact h hp.2
  have hsnd := foldl_checkReward_snd c mh entry.name_en rl (acc.1, true)
  rw [hfail] at hsnd
  simp only [Bool.and_false] at hsnd
  simp only [monsterStep, hrl]
  rw [if_pos hsnd]

theorem sortRewards_pairwise (rl : List Reward) :
    (List.insertionSort RewardRel rl).Pairwise
      (fun a b => keyLe (rewardKey a) (rewardKey b) = true) := by
  have h := List.sorted_insertionSort RewardRel rl
  exact List.Pairwise.imp (fun hab => hab) h

/-- Claim C1 (amended): a reward group keyed by (rank, condition) whose
references all resolve, whose condition is not a substring of the uncapped
string, and whose percentages do not sum to 100, makes the monster's step
add EXACTLY ONE warning-severity issue naming the monster, rank and
condition, while the collected error set is left untouched (so the group
cannot fail the run). -/
theorem claim_C1_group_sum_warning (c : Cfg) (mh : Mhdata) (acc : List Msg × List Msg)
    (entry : MonsterEntry) (rl : List Reward) (rank cond : String) (r0 : Reward)
    (hrl : entry.rewards = some rl)
    (hvalid : ∀ r ∈ rl, rewardChecksPass c mh r = true)
    (hr0 : r0 ∈ rl) (hkey : rewardKey r0 = (rank, cond))
    (huncap : pyStrIn cond uncapped_conditions = false)
    (hsum : ((rl.filter (fun r => decide (rewardKey r = (rank, cond)))).map
        Reward.percentage).sum ≠ 100) :
    (monsterStep c mh acc entry).1 = acc.1
    ∧ ((monsterStep c mh acc entry).2).count (Msg.rewardsNotExact entry.name_en rank cond)
        = acc.2.count (Msg.rewardsNotExact entry.name_en rank cond) + 1 := by
  have hfold := foldl_checkReward_of_valid c mh entry.name_en rl (acc.1, true) hvalid
  have hstep : monsterStep c mh acc entry
      = (acc.1, acc.2 ++ monsterRewardWarnings entry.name_en rl) := by
    simp only [monsterStep, hrl, hfold]
    simp
  rw [hstep]
  refine ⟨rfl, ?_⟩
  simp only [List.count_append]
  have hcount : (monsterRewardWarnings entry.name_en rl).count
      (Msg.rewardsNotExact entry.name_en rank cond) = 1 := by
    unfold monsterRewardWarnings
    rw [List.count_flatMap]
    set S := List.insertionSort RewardRel rl with hS
    set gs := groupRuns rewardKey S with hgs
    have hdist : (gs.map Prod.fst).Pairwise (fun k1 k2 => k1 ≠ k2) :=
      groupRuns_keys_distinct rewardKey keyLe (fun x y => keyLe_antisymm) S
        (sortRewards_pairwise rl)
    have hr0S : r0 ∈ S := ((List.perm_insertionSort RewardRel rl).mem_iff).mpr hr0
    have hr0flat : r0 ∈ gs.flatMap Prod.snd := by
      rw [hgs, groupRuns_flatMap]
      exact hr0S
    obtain ⟨ph, hph, hr0ph⟩ := List.mem_flatMap.mp hr0flat
    have hphk : ph.1 = (rank, cond) := by
      rw [← (groupRuns_mem rewardKey S ph hph).2 r0 hr0ph, hkey]
    have hzero : ∀ p ∈ gs, p.1 ≠ (rank, cond) →
        ((List.count (Msg.rewardsNotExact entry.name_en rank cond)
            ∘ fun p => checkGroup entry.name_en p.1 p.2) p) = 0 := by
      intro p hp hne
      simp only [Function.comp_apply]
      rw [List.count_eq_zero]
      intro hmem
      simp only [checkGroup, ensure_warn] at hmem
      by_cases hA : pyStrIn p.1.2 uncapped_conditions = false
      · rw [if_pos hA] at hmem
        by_cases hB : (p.2.map Reward.percentage).sum = 100
        · rw [if_pos hB] at hmem
          simp at hmem
        · rw [if_neg hB] at hmem
          simp only [List.mem_singleton] at hmem
          rw [Msg.rewardsNotExact.injEq] at hmem
          exact hne (Prod.ext_iff.mpr ⟨hmem.2.1.symm, hmem.2.2.symm⟩)
      · rw [if_neg hA] at hmem
        by_cases hB : (p.2.map Reward.percentage).sum ≥ 100
        · rw [if_pos hB] at hmem
          simp at hmem
        · rw [if_neg hB] at hmem
          simp only [List.mem_singleton] at hmem
          exact absurd hmem (by simp)
    have hsingle := map_sum_single (κ := String × String) (β := List Reward) (rank, cond)
      gs (List.count (Msg.rewardsNotExact entry.name_en rank cond)
        ∘ fun p => checkGroup entry.name_en p.1 p.2) ph hdist hph hphk hzero
    rw [hsingle]
    have hfilterS := flatMap_filter_of_distinct rewardKey gs hdist
      (fun p hp => (groupRuns_mem rewardKey S p hp).2) ph hph
    rw [hgs, groupRuns_flatMap] at hfilterS
    have hperm : (S.filter (fun x => decide (rewardKey x = ph.1))).Perm
        (rl.filter (fun x => decide (rewardKey x = ph.1))) :=
      (List.perm_insertionSort RewardRel rl).filter _
    have hsum2 : ((ph.2).map Reward.percentage).sum ≠ 100 := by
      rw [← hfilterS, (hperm.map Reward.percentage).sum_eq, hphk]
      exact hsum
    have hA : pyStrIn ph.1.2 uncapped_conditions = false := by
      rw [hphk]
      exact huncap
    have h11 : ph.1.1 = rank := by rw [hphk]
    have h12 : ph.1.2 = cond := by rw [hphk]
    simp only [Function.comp_apply, checkGroup, ensure_warn]
    rw [if_pos hA, if_neg hsum2, h11, h12]
    simp
  rw [hcount]

/-- A small concrete configuration for concrete runs. -/
def cfg0 : Cfg :=
  { supported_ranks := ["LR", "HR"], armor_parts := ["head", "chest"],
    weapon_types_melee := ["great-sword"], weapon_types_gun := ["light-bowgun"],
    hunting_horn := "hunting-horn", bow := "bow", weapon_multiplier := fun _ => 1 }

/-- Three rewards of one (LR, Capture) group summing to 90. -/
def rewards1 : List Reward :=
  [⟨"Capture", "LR", "Scale", 40⟩, ⟨"Capture", "LR", "Scale", 35⟩,
   ⟨"Capture", "LR", "Scale", 15⟩]

def mEntry1 : MonsterEntry :=
  { name_en := "Rathian", size := "small", hitzones := true, weaknesses := none,
    rewards := some rewards1 }

/-- A dataset whose only violation is the 90-percent group of mEntry1. -/
def mh1 : Mhdata :=
  { item_combinations := [], itemNames := fun _ => ["Scale"], location_map := [],
    monster_map := [(1, mEntry1)], monster_reward_conditions := ["Capture"],
    skill_map := [], armorset_map := [], armor_map := [], armorset_bonus_map := [],
    weapon_map := [], weapon_ammo_map := [], charm_map := [] }

/-- Claim C1 counterexample: the violating group yields NO error-severity
issue — the message is emitted as a warning only — and the overall run
returns success, contradicting the claimed error severity and run
failure. -/
theorem claim_C1_counterexample :
    (validate_monster_rewards cfg0 mh1).errors = []
    ∧ (validate_monster_rewards cfg0 mh1).warnings
        = [Msg.rewardsNotExact "Rathian" "LR" "Capture"]
    ∧ validate cfg0 mh1 = true := by decide

theorem claim_C1_witness :
    (monsterStep cfg0 mh1 (([] : List Msg), ([] : List Msg)) mEntry1).1 = ([] : List Msg)
    ∧ ((monsterStep cfg0 mh1 (([] : List Msg), ([] : List Msg)) mEntry1).2).count
        (Msg.rewardsNotExact mEntry1.name_en "LR" "Capture")
      = (([] : List Msg), ([] : List Msg)).2.count
          (Msg.rewardsNotExact mEntry1.name_en "LR" "Capture") + 1 :=
  claim_C1_group_sum_warning cfg0 mh1 (([] : List Msg), ([] : List Msg)) mEntry1 rewards1
    "LR" "Capture" ⟨"Capture", "LR", "Scale", 40⟩ rfl (by decide) (by decide) rfl
    (by decide) (by decide)

def mEntry9 : MonsterEntry :=
  { name_en := "Jagras", size := "small", hitzones := true, weaknesses := none,
    rewards := some [⟨"Carves", "LR", "Hide", 100⟩] }

/-- A dataset in which mEntry9's reward names an unknown condition. -/
def mh9 : Mhdata :=
  { item_combinations := [], itemNames := fun _ => ["Hide"], location_map := [],
    monster_map := [(1, mEntry9)], monster_reward_conditions := [],
    skill_map := [], armorset_map := [], armor_map := [], armorset_bonus_map := [],
    weapon_map := [], weapon_ammo_map := [], charm_map := [] }

theorem claim_C9_witness :
    (monsterStep cfg0 mh9 (([] : List Msg), ([] : List Msg)) mEntry9).2 = ([] : List Msg) :=
  claim_C9_invalid_refs_skip_sums cfg0 mh9 (([] : List Msg), ([] : List Msg)) mEntry9
    [⟨"Carves", "LR", "Hide", 100⟩] ⟨"Carves", "LR", "Hide", 100⟩ rfl (by decide)
    (Or.inl (by decide))

/-! ## Claim C5 — bowgun ammo configuration -/

theorem count_ite_singleton_ne (P : Prop) [Decidable P] (m m2 : Msg) (h : ¬ m2 = m) :
    (if P then [m2] else []).count m = 0 := by
  split
  · simp [List.count_singleton, h]
  · rfl

theorem not_in_recipeErrors (mh : Mhdata) (e : WeaponEntry) (m : Msg)
    (h1 : ∀ nm, ¬ m = Msg.weaponNoRecipes nm)
    (h2 : ∀ nm it, ¬ m = Msg.weaponInvalidRecipeItem nm it) :
    m ∉ weaponRecipeErrors mh e := by
  unfold weaponRecipeErrors
  intro hm
  split at hm
  · split at hm
    · simp only [List.mem_singleton] at hm
      exact h1 _ hm
    · obtain ⟨recipe, hrec, hm2⟩ := List.mem_flatMap.mp hm
      obtain ⟨it, hit, hm3⟩ := List.mem_flatMap.mp hm2
      split at hm3
      · simp at hm3
      · simp only [List.mem_singleton] at hm3
        exact h2 _ _ hm3
  · simp at hm

theorem not_in_eldersealErrors (e : WeaponEntry) (m : Msg)
    (h1 : ∀ nm, ¬ m = Msg.weaponEldersealNoDragon nm)
    (h2 : ∀ nm, ¬ m = Msg.weaponDragonNoElderseal nm) :
    m ∉ weaponEldersealErrors e := by
  intro hm
  simp only [weaponEldersealErrors, List.mem_append] at hm
  rcases hm with hm | hm
  · split at hm
    · simp only [List.mem_singleton] at hm
      exact h1 _ hm
    · simp at hm
  · split at hm
    · simp only [List.mem_singleton] at hm
      exact h2 _ hm
    · simp at hm

theorem invalidAmmo_mem_ammoErrors (c : Cfg) (mh : Mhdata) (e : WeaponEntry)
    (hm : Msg.weaponInvalidAmmo e.name_en ∈ weaponAmmoErrors c mh e) :
    pyTruthyStr e.ammo_config = true
    ∧ (e.ammo_config.getD "") ∉ mh.weapon_ammo_map.map Prod.fst := by
  unfold weaponAmmoErrors at hm
  by_cases hg : e.weapon_type ∈ c.weapon_types_gun
  · rw [if_pos hg] at hm
    by_cases ht : pyTruthyStr e.ammo_config = false
    · rw [if_pos ht] at hm
      simp at hm
    · rw [if_neg ht] at hm
      by_cases hk : (e.ammo_config.getD "") ∈ mh.weapon_ammo_map.map Prod.fst
      · rw [if_pos hk] at hm
        simp at hm
      · cases hb : pyTruthyStr e.ammo_config with
        | false => exact absurd hb ht
        | true => exact ⟨rfl, hk⟩
  · rw [if_neg hg] at hm
    simp at hm

/-- Claim C5: a bowgun-category weapon whose ammo_config is missing or empty
gets exactly one missing-ammo-config error and never additionally the
invalid-ammo-config error; the lookup error can only arise for a weapon
whose ammo_config is present (truthy) and absent from the ammo table. -/
theorem claim_C5_weapon_ammo (c : Cfg) (mh : Mhdata) (e : WeaponEntry)
    (hgun : e.weapon_type ∈ c.weapon_types_gun)
    (hcfg : pyTruthyStr e.ammo_config = false) :
    (weaponEntryErrors c mh e).count (Msg.weaponMissingAmmo e.name_en) = 1
    ∧ (weaponEntryErrors c mh e).count (Msg.weaponInvalidAmmo e.name_en) = 0
    ∧ (∀ e2 : WeaponEntry,
        Msg.weaponInvalidAmmo e2.name_en ∈ weaponEntryErrors c mh e2 →
          pyTruthyStr e2.ammo_config = true
          ∧ (e2.ammo_config.getD "") ∉ mh.weapon_ammo_map.map Prod.fst) := by
  have hammo : weaponAmmoErrors c mh e = [Msg.weaponMissingAmmo e.name_en] := by
    unfold weaponAmmoErrors
    rw [if_pos hgun, if_pos hcfg]
  refine ⟨?_, ?_, ?_⟩
  · simp only [weaponEntryErrors, List.count_append, hammo]
    have h1 : (weaponRecipeErrors mh e).count (Msg.weaponMissingAmmo e.name_en) = 0 :=
      List.count_eq_zero.mpr
        (not_in_recipeErrors mh e _ (by simp) (by simp))
    have h7 : (weaponEldersealErrors e).count (Msg.weaponMissingAmmo e.name_en) = 0 :=
      List.count_eq_zero.mpr
        (not_in_eldersealErrors e _ (by simp) (by simp))
    rw [h1, h7, count_ite_singleton_ne _ _ _ (by simp), count_ite_singleton_ne _ _ _ (by simp),
      count_ite_singleton_ne _ _ _ (by simp), count_ite_singleton_ne _ _ _ (by simp)]
    simp
  · simp only [weaponEntryErrors, List.count_append, hammo]
    have h1 : (weaponRecipeErrors mh e).count (Msg.weaponInvalidAmmo e.name_en) = 0 :=
      List.count_eq_zero.mpr
        (not_in_recipeErrors mh e _ (by simp) (by simp))
    have h7 : (weaponEldersealErrors e).count (Msg.weaponInvalidAmmo e.name_en) = 0 :=
      List.count_eq_zero.mpr
        (not_in_eldersealErrors e _ (by simp) (by simp))
    rw [h1, h7, count_ite_singleton_ne _ _ _ (by simp), count_ite_singleton_ne _ _ _ (by simp),
      count_ite_singleton_ne _ _ _ (by simp), count_ite_singleton_ne _ _ _ (by simp)]
    simp
  · intro e2 hm
    simp only [weaponEntryErrors, List.mem_append] at hm
    rcases hm with ((((((hm | hm) | hm) | hm) | hm) | hm) | hm)
    · exact absurd hm (not_in_recipeErrors mh e2 _ (by simp) (by simp))
    · split at hm <;> simp at hm
    · split at hm <;> simp at hm
    · split at hm <;> simp at hm
    · exact invalidAmmo_mem_ammoErrors c mh e2 hm
    · split at hm <;> simp at hm
    · exact absurd hm (not_in_eldersealErrors e2 _ (by simp) (by simp))

/-- A Kulve bowgun with no ammo configuration. -/
def w5 : WeaponEntry :=
  { name_en := "Karma", weapon_type := "light-bowgun", category := "Kulve", craft := [],
    sharpness := false, notes := false, bow := false, ammo_config := none,
    element1 := none, element1_attack := none, element2 := none, phial := none,
    elderseal := none, attack := 100 }

def mh5 : Mhdata :=
  { item_combinations := [], itemNames := fun _ => [], location_map := [],
    monster_map := [], monster_reward_conditions := [], skill_map := [],
    armorset_map := [], armor_map := [], armorset_bonus_map := [], weapon_map := [w5],
    weapon_ammo_map := [], charm_map := [] }

theorem claim_C5_witness :
    (weaponEntryErrors cfg0 mh5 w5).count (Msg.weaponMissingAmmo w5.name_en) = 1
    ∧ (weaponEntryErrors cfg0 mh5 w5).count (Msg.weaponInvalidAmmo w5.name_en) = 0
    ∧ (∀ e2 : WeaponEntry,
        Msg.weaponInvalidAmmo e2.name_en ∈ weaponEntryErrors cfg0 mh5 e2 →
          pyTruthyStr e2.ammo_config = true
          ∧ (e2.ammo_config.getD "") ∉ mh5.weapon_ammo_map.map Prod.fst) :=
  claim_C5_weapon_ammo cfg0 mh5 w5 (by decide) (by decide)

/-! ## Claim C7 — armor set ordering -/

theorem armorMinFold_spec :
    ∀ (rest : List ArmorData) (a : ArmorData),
      (rest.foldl (fun acc x => if x.order < acc.order then x else acc) a) ∈ a :: rest
      ∧ (rest.foldl (fun acc x => if x.order < acc.order then x else acc) a).order ≤ a.order
      ∧ (∀ x ∈ rest,
          (rest.foldl (fun acc x => if x.order < acc.order then x else acc) a).order
            ≤ x.order) := by
  intro rest
  induction rest with
  | nil =>
    intro a
    refine ⟨List.mem_cons_self _ _, Nat.le_refl _, ?_⟩
    intro x hx
    simp at hx
  | cons b tl ih =>
    intro a
    simp only [List.foldl_cons]
    by_cases hba : b.order < a.order
    · rw [if_pos hba]
      obtain ⟨hmem, hle, hall⟩ := ih b
      refine ⟨List.mem_cons_of_mem a hmem, Nat.le_trans hle (Nat.le_of_lt hba), ?_⟩
      intro x hx
      rcases List.mem_cons.mp hx with h | h
      · rw [h]
        exact hle
      · exact hall x h
    · rw [if_neg hba]
      obtain ⟨hmem, hle, hall⟩ := ih a
      refine ⟨?_, hle, ?_⟩
      · rcases List.mem_cons.mp hmem with h | h
        · rw [h]
          exact List.mem_cons_self _ _
        · exact List.mem_cons_of_mem a (List.mem_cons_of_mem b h)
      · intro x hx
        rcases List.mem_cons.mp hx with h | h
        · rw [h]
          exact Nat.le_trans hle (Nat.le_of_not_lt hba)
        · exact hall x h

theorem pyDictSet_append {κ ν : Type} [DecidableEq κ] :
    ∀ (m : List (κ × ν)) (k : κ) (v : ν),
      k ∉ m.map Prod.fst → pyDictSet m k v = m ++ [(k, v)] := by
  intro m
  induction m with
  | nil => intro k v _; rfl
  | cons hd tl ih =>
    intro k v hk
    obtain ⟨k0, v0⟩ := hd
    simp only [List.map_cons, List.mem_cons] at hk
    push_neg at hk
    unfold pyDictSet
    rw [if_neg (fun h => hk.1 h.symm), ih k v hk.2]
    rfl

theorem dictFold_of_nodup {κ ν : Type} [DecidableEq κ] (keyf : ν → κ) :
    ∀ (l : List ν) (acc : List (κ × ν)),
      (acc.map Prod.fst ++ l.map keyf).Nodup →
      l.foldl (fun m s => pyDictSet m (keyf s) s) acc
        = acc ++ l.map (fun s => (keyf s, s)) := by
  intro l
  induction l with
  | nil => intro acc _; simp
  | cons s tl ih =>
    intro acc hnd
    simp only [List.foldl_cons]
    have hk : keyf s ∉ acc.map Prod.fst := by
      rcases List.nodup_append.mp (by simpa using hnd) with ⟨h1, h2, hdisj⟩
      exact fun hmem => hdisj hmem (List.mem_cons_self _ _)
    rw [pyDictSet_append acc (keyf s) s hk]
    have hnd2 : ((acc ++ [(keyf s, s)]).map Prod.fst ++ tl.map keyf).Nodup := by
      simp only [List.map_append]
      simpa [List.append_assoc] using hnd
    rw [ih (acc ++ [(keyf s, s)]) hnd2]
    simp [List.append_assoc]

/-- Claim C7 (amended): a non-empty armor set's derived order is the minimum
of its members' orders and its derived rank is the first member's rank; the
sorted list load_armor_series builds is ascending by (rank, order) with low
rank first, and the final name-keyed sequence preserves that order PROVIDED
the sets' English names are pairwise distinct (a repeated name overwrites
an earlier entry in place and can break the order). -/
theorem claim_C7_armor_ordering (s : ArmorSetData) (a : ArmorData) (rest : List ArmorData)
    (inp : ArmorInputs)
    (hs : s.armors = a :: rest)
    (hnd : ((armorSetsAssembled inp).map ArmorSetData.name_en).Nodup) :
    (s.order ∈ s.armors.map ArmorData.order ∧ ∀ x ∈ s.armors, s.order ≤ x.order)
    ∧ s.rank = a.rank
    ∧ ((load_armor_series inp).map Prod.snd).Pairwise ArmorSetRel := by
  refine ⟨?_, ?_, ?_⟩
  · have hord : s.order
        = ((rest.foldl (fun acc x => if x.order < acc.order then x else acc) a)).order := by
      unfold ArmorSetData.order
      rw [hs]
    obtain ⟨hmem, hle, hall⟩ := armorMinFold_spec rest a
    rw [hs]
    refine ⟨?_, ?_⟩
    · rw [hord]
      exact List.mem_map.mpr ⟨_, hmem, rfl⟩
    · intro x hx
      rcases List.mem_cons.mp hx with h | h
      · rw [hord, h]
        exact hle
      · rw [hord]
        exact hall x h
  · unfold ArmorSetData.rank
    rw [hs]
  · have hsorted := List.sorted_insertionSort ArmorSetRel (armorSetsAssembled inp)
    have hndS : ((List.insertionSort ArmorSetRel (armorSetsAssembled inp)).map
        ArmorSetData.name_en).Nodup :=
      (((List.perm_insertionSort ArmorSetRel (armorSetsAssembled inp)).map
        ArmorSetData.name_en).nodup_iff).mpr hnd
    have hdict := dictFold_of_nodup ArmorSetData.name_en
      (List.insertionSort ArmorSetRel (armorSetsAssembled inp)) [] (by simpa using hndS)
    simp only [load_armor_series]
    rw [hdict, List.nil_append, List.map_map]
    have hmapid : (List.insertionSort ArmorSetRel (armorSetsAssembled inp)).map
        (Prod.snd ∘ fun s => (s.name_en, s))
        = List.insertionSort ArmorSetRel (armorSetsAssembled inp) := by
      have hfun : (Prod.snd ∘ fun s : ArmorSetData => (s.name_en, s)) = fun s => s := rfl
      rw [hfun]
      exact List.map_id' _
    rw [hmapid]
    exact hsorted

/-- Three armor binaries in three one-piece sets; the first and third sets
share the English name "X". Fields: id, set id, type, gender, order,
variant, equip slot, name index. -/
def amdC7a : AmDatEntry := ⟨1, 1, 0, 1, 3, 0, 0, 1⟩

def amdC7b : AmDatEntry := ⟨2, 2, 0, 1, 5, 0, 0, 2⟩

def amdC7c : AmDatEntry := ⟨3, 3, 0, 1, 1, 1, 0, 3⟩

def armorInputsC7 : ArmorInputs :=
  { armorText := fun i =>
      if i = 1 then some "P1" else if i = 2 then some "P2"
      else if i = 3 then some "P3" else none,
    armorSetText := fun i => if i = 1 then "X" else if i = 2 then "Y" else "X",
    craftData := fun _ => some ⟨1⟩,
    binaries := [amdC7a, amdC7b, amdC7c] }

/-- Claim C7 counterexample: with a repeated English set name the final
sequence produced by load_armor_series is NOT sorted by (rank, order): the
high-rank set named "X" overwrites the low-rank one at the front position,
ahead of the low-rank set named "Y". -/
theorem claim_C7_counterexample :
    ¬ ((load_armor_series armorInputsC7).map Prod.snd).Pairwise ArmorSetRel := by decide

def armorInputsW : ArmorInputs :=
  { armorText := fun i => if i = 1 then some "P1" else none,
    armorSetText := fun _ => "W",
    craftData := fun _ => some ⟨1⟩,
    binaries := [amdC7a] }

def armorW : ArmorData := ⟨amdC7a, "P1", ⟨1⟩⟩

def setW : ArmorSetData := ⟨"W", [armorW]⟩

theorem claim_C7_witness :
    (setW.order ∈ setW.armors.map ArmorData.order ∧ ∀ x ∈ setW.armors, setW.order ≤ x.order)
    ∧ setW.rank = armorW.rank
    ∧ ((load_armor_series armorInputsW).map Prod.snd).Pairwise ArmorSetRel :=
  claim_C7_armor_ordering setW armorW [] armorInputsW rfl (by decide)

/-! ## Claims C6 and C10 — weapon tree assembly -/

theorem tree_pyDictSet_eq (m : WMap) (k : Nat) (n n2 : WNode) (j : Nat)
    (hlk : pyLookup m k = some n) (htr : n2.tree = n.tree) :
    (pyLookup (pyDictSet m k n2) j).map WNode.tree = (pyLookup m j).map WNode.tree := by
  by_cases hj : j = k
  · subst hj
    rw [pyLookup_pyDictSet_self, hlk]
    simp [htr]
  · rw [pyLookup_pyDictSet_other m k j n2 hj]

theorem isSome_pyDictSet_eq {κ ν : Type} [DecidableEq κ] (m : List (κ × ν)) (k j : κ)
    (v : ν) (hk : (pyLookup m k).isSome = true) :
    (pyLookup (pyDictSet m k v) j).isSome = (pyLookup m j).isSome := by
  by_cases hj : j = k
  · subst hj
    rw [pyLookup_pyDictSet_self]
    simp [Option.isSome_iff_exists] at hk ⊢
    obtain ⟨v0, hv0⟩ := hk
    simp [hv0]
  · rw [pyLookup_pyDictSet_other m k j v hj]


theorem setParent_eq (m : WMap) (p c : Nat) (cn : WNode) (hc : pyLookup m c = some cn) :
    setParent m p c = pyDictSet m c { cn with parent := some p } := by
  unfold setParent
  rw [hc]

theorem appendChild_eq (m : WMap) (p c : Nat) (pn : WNode) (hp : pyLookup m p = some pn) :
    appendChild m p c = pyDictSet m p { pn with children := pn.children ++ [c] } := by
  unfold appendChild
  rw [hp]

theorem setParent_tree (m : WMap) (p c j : Nat) :
    (pyLookup (setParent m p c) j).map WNode.tree = (pyLookup m j).map WNode.tree := by
  unfold setParent
  cases hc : pyLookup m c with
  | none => rfl
  | some cn => exact tree_pyDictSet_eq m c cn _ j hc rfl

theorem appendChild_tree (m : WMap) (p c j : Nat) :
    (pyLookup (appendChild m p c) j).map WNode.tree = (pyLookup m j).map WNode.tree := by
  unfold appendChild
  cases hp : pyLookup m p with
  | none => rfl
  | some pn => exact tree_pyDictSet_eq m p pn _ j hp rfl

theorem addChild_tree (m : WMap) (p c j : Nat) :
    (pyLookup (addChild m p c) j).map WNode.tree = (pyLookup m j).map WNode.tree := by
  unfold addChild
  rw [appendChild_tree, setParent_tree]

theorem addChild_spec (m : WMap) (p c : Nat) (pn cn : WNode)
    (hp : pyLookup m p = some pn) (hc : pyLookup m c = some cn) :
    (∃ pn2, pyLookup (addChild m p c) p = some pn2
      ∧ pn2.children = pn.children ++ [c] ∧ pn2.tree = pn.tree)
    ∧ (∀ j, (pyLookup (addChild m p c) j).isSome = (pyLookup m j).isSome)
    ∧ (∃ cn2, pyLookup (addChild m p c) c = some cn2 ∧ cn2.parent = some p)
    ∧ (∀ j nj, pyLookup m j = some nj → nj.parent = some p →
        ∃ nj2, pyLookup (addChild m p c) j = some nj2 ∧ nj2.parent = some p) := by
  by_cases hpc : p = c
  · subst hpc
    have hpn : cn = pn := by
      rw [hp] at hc
      exact (Option.some.inj hc).symm
    subst hpn
    have h1 : setParent m p p = pyDictSet m p { cn with parent := some p } :=
      setParent_eq m p p cn hc
    have hm1self : pyLookup (pyDictSet m p { cn with parent := some p }) p
        = some { cn with parent := some p } := pyLookup_pyDictSet_self m p _
    have h2 : addChild m p p
        = pyDictSet (pyDictSet m p { cn with parent := some p }) p
            { cn with parent := some p, children := cn.children ++ [p] } := by
      unfold addChild
      rw [h1, appendChild_eq _ p p _ hm1self]
    rw [h2]
    refine ⟨⟨_, pyLookup_pyDictSet_self _ p _, rfl, rfl⟩, ?_, ?_, ?_⟩
    · intro j
      rw [isSome_pyDictSet_eq _ p j _ (by rw [hm1self]; rfl),
        isSome_pyDictSet_eq m p j _ (by rw [hc]; rfl)]
    · exact ⟨_, pyLookup_pyDictSet_self _ p _, rfl⟩
    · intro j nj hnj hpar
      by_cases hj : j = p
      · subst hj
        exact ⟨_, pyLookup_pyDictSet_self _ j _, rfl⟩
      · rw [pyLookup_pyDictSet_other _ p j _ hj, pyLookup_pyDictSet_other m p j _ hj, hnj]
        exact ⟨nj, rfl, hpar⟩
  · have h1 : setParent m p c = pyDictSet m c { cn with parent := some p } :=
      setParent_eq m p c cn hc
    have hm1p : pyLookup (pyDictSet m c { cn with parent := some p }) p = some pn := by
      rw [pyLookup_pyDictSet_other m c p _ hpc]
      exact hp
    have h2 : addChild m p c
        = pyDictSet (pyDictSet m c { cn with parent := some p }) p
            { pn with children := pn.children ++ [c] } := by
      unfold addChild
      rw [h1, appendChild_eq _ p c pn hm1p]
    rw [h2]
    refine ⟨⟨_, pyLookup_pyDictSet_self _ p _, rfl, rfl⟩, ?_, ?_, ?_⟩
    · intro j
      rw [isSome_pyDictSet_eq _ p j _ (by rw [hm1p]; rfl),
        isSome_pyDictSet_eq m c j _ (by rw [hc]; rfl)]
    · refine ⟨{ cn with parent := some p }, ?_, rfl⟩
      rw [pyLookup_pyDictSet_other _ p c _ (fun h => hpc h.symm)]
      exact pyLookup_pyDictSet_self m c _
    · intro j nj hnj hpar
      by_cases hjp : j = p
      · subst hjp
        refine ⟨_, pyLookup_pyDictSet_self _ j _, ?_⟩
        rw [hp] at hnj
        rw [Option.some.inj hnj]
        exact hpar
      · rw [pyLookup_pyDictSet_other _ p j _ hjp]
        by_cases hjc : j = c
        · subst hjc
          rw [pyLookup_pyDictSet_self m j _]
          exact ⟨_, rfl, rfl⟩
        · rw [pyLookup_pyDictSet_other m c j _ hjc, hnj]
          exact ⟨nj, rfl, hpar⟩

/-- The weapon id a descendant slot resolves to (slot 0 is empty). -/
def slotChild (ctx : LoadCtx) (d : Nat) : Option Nat :=
  if d = 0 then none else (ctx.upgradeData[d]?).map EqCusEntry.equip_id

theorem attachChain_spec (ctx : LoadCtx) (pid : Nat) :
    ∀ (ds : List Nat) (m : WMap) (pn : WNode),
      pyLookup m pid = some pn →
      (∀ d ∈ ds, d ≠ 0 → ∃ u, ctx.upgradeData[d]? = some u
        ∧ (pyLookup m u.equip_id).isSome = true) →
      ∃ m2, ds.foldl (attachDescendant ctx pid) (some m) = some m2
        ∧ (∀ j, (pyLookup m2 j).map WNode.tree = (pyLookup m j).map WNode.tree)
        ∧ (∀ j, (pyLookup m2 j).isSome = (pyLookup m j).isSome)
        ∧ (∃ pn2, pyLookup m2 pid = some pn2
            ∧ pn2.children = pn.children ++ ds.filterMap (slotChild ctx)
            ∧ pn2.tree = pn.tree)
        ∧ (∀ cid ∈ ds.filterMap (slotChild ctx),
            ∃ cn2, pyLookup m2 cid = some cn2 ∧ cn2.parent = some pid)
        ∧ (∀ j nj, pyLookup m j = some nj → nj.parent = some pid →
            ∃ nj2, pyLookup m2 j = some nj2 ∧ nj2.parent = some pid) := by
  intro ds
  induction ds with
  | nil =>
    intro m pn hp _
    refine ⟨m, rfl, fun j => rfl, fun j => rfl, ⟨pn, hp, by simp, rfl⟩, ?_,
      fun j nj hnj hpar => ⟨nj, hnj, hpar⟩⟩
    intro cid hcid
    simp at hcid
  | cons d ds ih =>
    intro m pn hp hres
    simp only [List.foldl_cons]
    by_cases hd0 : d = 0
    · subst hd0
      have hatt : attachDescendant ctx pid (some m) 0 = some m := by
        simp [attachDescendant]
      rw [hatt]
      have hres2 : ∀ d2 ∈ ds, d2 ≠ 0 → ∃ u, ctx.upgradeData[d2]? = some u
          ∧ (pyLookup m u.equip_id).isSome = true :=
        fun d2 hd2 => hres d2 (List.mem_cons_of_mem _ hd2)
      obtain ⟨m2, hfold, htree, hsome, ⟨pn2, h1, h2, h3⟩, hkids, hstab⟩ := ih m pn hp hres2
      have hfm : (0 :: ds).filterMap (slotChild ctx) = ds.filterMap (slotChild ctx) := by
        simp [List.filterMap_cons, slotChild]
      rw [hfm]
      exact ⟨m2, hfold, htree, hsome, ⟨pn2, h1, h2, h3⟩, hkids, hstab⟩
    · obtain ⟨u, hu, husome⟩ := hres d (List.mem_cons_self _ _) hd0
      obtain ⟨cn, hcn⟩ := Option.isSome_iff_exists.mp husome
      have hatt : attachDescendant ctx pid (some m) d
          = some (addChild m pid u.equip_id) := by
        simp only [attachDescendant, hu, hcn]
        rw [if_neg hd0]
      rw [hatt]
      obtain ⟨⟨pnA, hpnA, hchA, htrA⟩, hsomeA, ⟨cnA, hcnA, hparA⟩, hstabA⟩ :=
        addChild_spec m pid u.equip_id pn cn hp hcn
      have hres2 : ∀ d2 ∈ ds, d2 ≠ 0 → ∃ u2, ctx.upgradeData[d2]? = some u2
          ∧ (pyLookup (addChild m pid u.equip_id) u2.equip_id).isSome = true := by
        intro d2 hd2 hne
        obtain ⟨u2, hu2, hsome2⟩ := hres d2 (List.mem_cons_of_mem _ hd2) hne
        exact ⟨u2, hu2, by rw [hsomeA]; exact hsome2⟩
      obtain ⟨m2, hfold, htree, hsome, ⟨pn2, hpn2, hch2, htr2⟩, hkids, hstab⟩ :=
        ih (addChild m pid u.equip_id) pnA hpnA hres2
      have hslot : slotChild ctx d = some u.equip_id := by
        unfold slotChild
        rw [if_neg hd0, hu]
        rfl
      have hfm : (d :: ds).filterMap (slotChild ctx)
          = u.equip_id :: ds.filterMap (slotChild ctx) := by
        simp [List.filterMap_cons, hslot]
      rw [hfm]
      refine ⟨m2, hfold, ?_, ?_, ?_, ?_, ?_⟩
      · intro j
        rw [htree j, addChild_tree]
      · intro j
        rw [hsome j, hsomeA j]
      · refine ⟨pn2, hpn2, ?_, by rw [htr2, htrA]⟩
        rw [hch2, hchA]
        simp [List.append_assoc]
      · intro cid hcid
        rcases List.mem_cons.mp hcid with h | h
        · subst h
          exact hstab _ cnA hcnA hparA
        · exact hkids cid h
      · intro j nj hnj hpar
        obtain ⟨nj1, hnj1, hpar1⟩ := hstabA j nj hnj hpar
        exact hstab j nj1 hnj1 hpar1

theorem processWeapon_d1_spec (ctx : LoadCtx) (descs : DescMap) (wmap : WMap)
    (wid d1 d2 d3 d4 : Nat) (wnode : WNode) (u1 : EqCusEntry)
    (hds : pyLookup descs wid = some (d1, d2, d3, d4))
    (hw : pyLookup wmap wid = some wnode)
    (hch : wnode.children = [])
    (hres : ∀ d ∈ [d1, d2, d3, d4], d ≠ 0 → ∃ u, ctx.upgradeData[d]? = some u
      ∧ (pyLookup wmap u.equip_id).isSome = true)
    (hne1 : d1 ≠ 0) (hu1 : ctx.upgradeData[d1]? = some u1) :
    ∃ m2, processWeapon ctx descs wmap wid = some m2
      ∧ (pyLookup m2 u1.equip_id).map WNode.tree = some wnode.tree
      ∧ (∀ j, j ≠ u1.equip_id →
          (pyLookup m2 j).map WNode.tree = (pyLookup wmap j).map WNode.tree)
      ∧ (∃ cn2, pyLookup m2 u1.equip_id = some cn2 ∧ cn2.parent = some wid) := by
  obtain ⟨m4, hfold, htree, hsome, ⟨pn4, hpn4, hch4, htr4⟩, hkids, _⟩ :=
    attachChain_spec ctx wid [d1, d2, d3, d4] wmap wnode hw hres
  have hslot1 : slotChild ctx d1 = some u1.equip_id := by
    unfold slotChild
    rw [if_neg hne1, hu1]
    rfl
  have hfm : [d1, d2, d3, d4].filterMap (slotChild ctx)
      = u1.equip_id :: [d2, d3, d4].filterMap (slotChild ctx) := by
    simp [List.filterMap_cons, hslot1]
  have hchcons : pn4.children
      = u1.equip_id :: [d2, d3, d4].filterMap (slotChild ctx) := by
    rw [hch4, hch, hfm]
    rfl
  obtain ⟨cn4, hcn4, hpar4⟩ := hkids u1.equip_id (by rw [hfm]; exact List.mem_cons_self _ _)
  have hall : ¬ (d1 = 0 ∧ d2 = 0 ∧ d3 = 0 ∧ d4 = 0) := fun hz => hne1 hz.1
  have hproc : processWeapon ctx descs wmap wid
      = some (pyDictSet m4 u1.equip_id { cn4 with tree := pn4.tree }) := by
    simp only [processWeapon, hds, hfold, hpn4, hchcons, hcn4]
    rw [if_neg hall, if_neg hne1]
  refine ⟨pyDictSet m4 u1.equip_id { cn4 with tree := pn4.tree }, hproc, ?_, ?_, ?_⟩
  · rw [pyLookup_pyDictSet_self, ← htr4]
    rfl
  · intro j hj
    rw [pyLookup_pyDictSet_other _ _ _ _ hj, htree j]
  · exact ⟨_, pyLookup_pyDictSet_self _ _ _, hpar4⟩

/-- C6: in the second pass of load_tree, for a node whose descendant slots are
recorded: if all four slots are zero the map is returned unchanged (no
propagation); if slot 1 is nonzero the node's tree label is written onto the
first-declared child (the one slot 1 resolves to) and no other node's tree
changes; if slot 1 is zero but some other slot is nonzero, children are
attached but no node's tree label changes at all. -/
theorem claim_C6_tree_propagation (ctx : LoadCtx) (descs : DescMap) (wmap : WMap)
    (wid d1 d2 d3 d4 : Nat) (wnode : WNode)
    (hds : pyLookup descs wid = some (d1, d2, d3, d4))
    (hw : pyLookup wmap wid = some wnode)
    (hch : wnode.children = [])
    (hres : ∀ d ∈ [d1, d2, d3, d4], d ≠ 0 → ∃ u, ctx.upgradeData[d]? = some u
      ∧ (pyLookup wmap u.equip_id).isSome = true) :
    ((d1 = 0 ∧ d2 = 0 ∧ d3 = 0 ∧ d4 = 0) →
        processWeapon ctx descs wmap wid = some wmap)
    ∧ (∀ u1, d1 ≠ 0 → ctx.upgradeData[d1]? = some u1 →
        ∃ m2, processWeapon ctx descs wmap wid = some m2
          ∧ (pyLookup m2 u1.equip_id).map WNode.tree = some wnode.tree
          ∧ (∀ j, j ≠ u1.equip_id →
              (pyLookup m2 j).map WNode.tree = (pyLookup wmap j).map WNode.tree))
    ∧ (d1 = 0 → ¬ (d2 = 0 ∧ d3 = 0 ∧ d4 = 0) →
        ∃ m2, processWeapon ctx descs wmap wid = some m2
          ∧ ∀ j, (pyLookup m2 j).map WNode.tree = (pyLookup wmap j).map WNode.tree) := by
  refine ⟨?_, ?_, ?_⟩
  · intro hz
    simp only [processWeapon, hds]
    rw [if_pos hz]
  · intro u1 hne1 hu1
    obtain ⟨m2, hp, ht1, ht2, _⟩ :=
      processWeapon_d1_spec ctx descs wmap wid d1 d2 d3 d4 wnode u1 hds hw hch hres hne1 hu1
    exact ⟨m2, hp, ht1, ht2⟩
  · intro hd1 hrest
    have hall : ¬ (d1 = 0 ∧ d2 = 0 ∧ d3 = 0 ∧ d4 = 0) :=
      fun hz => hrest ⟨hz.2.1, hz.2.2.1, hz.2.2.2⟩
    obtain ⟨m4, hfold, htree, _, _, _, _⟩ :=
      attachChain_spec ctx wid [d1, d2, d3, d4] wmap wnode hw hres
    refine ⟨m4, ?_, htree⟩
    simp only [processWeapon, hds, hfold]
    rw [if_neg hall, if_pos hd1]

def u6A : EqCusEntry :=
  { equip_id := 2, item1_qty := 1, descendant1_idx := 0, descendant2_idx := 0,
    descendant3_idx := 0, descendant4_idx := 0 }

def u6B : EqCusEntry :=
  { equip_id := 3, item1_qty := 1, descendant1_idx := 0, descendant2_idx := 0,
    descendant3_idx := 0, descendant4_idx := 0 }

def ctx6 : LoadCtx :=
  { weaponText := fun _ => "W", weaponTrees := fun _ => "T",
    craftMap := fun _ => none, upgradeMap := fun _ => none,
    upgradeData := [u6A, u6A, u6B], wtype := "great-sword" }

def n6 (i : Nat) (t : String) : WNode :=
  { id := i, wtype := "great-sword", name := "W", tree := some t,
    craft := none, upgrade := none, parent := none, children := [] }

def wmap6 : WMap := [(1, n6 1 "T"), (2, n6 2 "X2"), (3, n6 3 "X3")]

def descs6 : DescMap := [(1, (1, 2, 0, 0))]

theorem claim_C6_witness :
    ∃ m2, processWeapon ctx6 descs6 wmap6 1 = some m2
      ∧ (pyLookup m2 2).map WNode.tree = some (n6 1 "T").tree
      ∧ (∀ j, j ≠ 2 →
          (pyLookup m2 j).map WNode.tree = (pyLookup wmap6 j).map WNode.tree) := by
  have hres : ∀ d ∈ [1, 2, 0, 0], d ≠ 0 → ∃ u, ctx6.upgradeData[d]? = some u
      ∧ (pyLookup wmap6 u.equip_id).isSome = true := by
    intro d hd hne
    fin_cases hd
    · exact ⟨u6A, rfl, rfl⟩
    · exact ⟨u6B, rfl, rfl⟩
    · exact absurd rfl hne
    · exact absurd rfl hne
  have h := claim_C6_tree_propagation ctx6 descs6 wmap6 1 1 2 0 0 (n6 1 "T")
    rfl rfl rfl hres
  exact h.2.1 u6A (by decide) rfl

/-- C10: in the first pass of load_tree, the descendant slots of a weapon whose
upgrade side-table entry exists are recorded in weapon_descendants BEFORE the
zero-quantity rule clears the upgrade recipe: for a weapon whose upgrade entry
has item1_qty = 0 (and a valid name), the descendant tuple is stored, the
created node carries upgrade = none, and the second pass still attaches the
slot-1 child (parent link set) from those stored slots — child attachment is
independent of whether the upgrade recipe is attached to the node. -/
theorem claim_C10_descendants_before_qty_rule (ctx : LoadCtx) (st : WMap × DescMap)
    (b : WBinary) (u : EqCusEntry)
    (hup : ctx.upgradeMap b.id = some u)
    (hqty : u.item1_qty = 0)
    (hname : ¬ (ctx.weaponText b.gmd_name_index = ""
        ∨ ctx.weaponText b.gmd_name_index = "Invalid Message")) :
    pyLookup (firstPassStep ctx st b).2 b.id
        = some (u.descendant1_idx, u.descendant2_idx, u.descendant3_idx, u.descendant4_idx)
    ∧ (∃ node, pyLookup (firstPassStep ctx st b).1 b.id = some node
        ∧ node.upgrade = none ∧ node.children = [])
    ∧ (∀ (wmap : WMap) (wnode : WNode) (u1 : EqCusEntry),
        pyLookup wmap b.id = some wnode → wnode.children = [] →
        u.descendant1_idx ≠ 0 → ctx.upgradeData[u.descendant1_idx]? = some u1 →
        (∀ d ∈ [u.descendant1_idx, u.descendant2_idx, u.descendant3_idx,
            u.descendant4_idx], d ≠ 0 → ∃ u2, ctx.upgradeData[d]? = some u2
              ∧ (pyLookup wmap u2.equip_id).isSome = true) →
        ∃ m2, processWeapon ctx (firstPassStep ctx st b).2 wmap b.id = some m2
          ∧ ∃ cn2, pyLookup m2 u1.equip_id = some cn2 ∧ cn2.parent = some b.id) := by
  have hsnd : (firstPassStep ctx st b).2 = pyDictSet st.2 b.id
      (u.descendant1_idx, u.descendant2_idx, u.descendant3_idx, u.descendant4_idx) := by
    simp only [firstPassStep, hup]
    rw [if_neg hname]
  have hds2 : pyLookup (firstPassStep ctx st b).2 b.id
      = some (u.descendant1_idx, u.descendant2_idx, u.descendant3_idx,
          u.descendant4_idx) := by
    rw [hsnd]
    exact pyLookup_pyDictSet_self _ _ _
  refine ⟨hds2, ?_, ?_⟩
  · simp only [firstPassStep, hup]
    rw [if_neg hname]
    refine ⟨_, pyLookup_pyDictSet_self _ _ _, ?_, rfl⟩
    simp [hqty]
  · intro wmap wnode u1 hlw hch hne1 hu1 hres
    obtain ⟨m2, hp, _, _, hchild⟩ :=
      processWeapon_d1_spec ctx (firstPassStep ctx st b).2 wmap b.id
        u.descendant1_idx u.descendant2_idx u.descendant3_idx u.descendant4_idx
        wnode u1 hds2 hlw hch hres hne1 hu1
    exact ⟨m2, hp, hchild⟩

def u10 : EqCusEntry :=
  { equip_id := 9, item1_qty := 0, descendant1_idx := 1, descendant2_idx := 0,
    descendant3_idx := 0, descendant4_idx := 0 }

def u10C : EqCusEntry :=
  { equip_id := 7, item1_qty := 1, descendant1_idx := 0, descendant2_idx := 0,
    descendant3_idx := 0, descendant4_idx := 0 }

def ctx10 : LoadCtx :=
  { weaponText := fun _ => "W", weaponTrees := fun _ => "T",
    craftMap := fun _ => none,
    upgradeMap := fun i => if i = 5 then some u10 else none,
    upgradeData := [u10C, u10C], wtype := "bow" }

def b10 : WBinary := { id := 5, gmd_name_index := 0, tree_id := 1 }

def wmap10 : WMap :=
  [(5, { id := 5, wtype := "bow", name := "W", tree := some "T", craft := none,
         upgrade := none, parent := none, children := [] }),
   (7, { id := 7, wtype := "bow", name := "W", tree := some "T", craft := none,
         upgrade := none, parent := none, children := [] })]

theorem claim_C10_witness :
    pyLookup (firstPassStep ctx10 ([], []) b10).2 5 = some (1, 0, 0, 0)
    ∧ (∃ node, pyLookup (firstPassStep ctx10 ([], []) b10).1 5 = some node
        ∧ node.upgrade = none ∧ node.children = [])
    ∧ (∃ m2, processWeapon ctx10 (firstPassStep ctx10 ([], []) b10).2 wmap10 5 = some m2
        ∧ ∃ cn2, pyLookup m2 7 = some cn2 ∧ cn2.parent = some 5) := by
  have hres : ∀ d ∈ [1, 0, 0, 0], d ≠ 0 → ∃ u2, ctx10.upgradeData[d]? = some u2
      ∧ (pyLookup wmap10 u2.equip_id).isSome = true := by
    intro d hd hne
    fin_cases hd
    · exact ⟨u10C, rfl, rfl⟩
    · exact absurd rfl hne
    · exact absurd rfl hne
    · exact absurd rfl hne
  have h := claim_C10_descendants_before_qty_rule ctx10 ([], []) b10 u10
    rfl rfl (by decide)
  refine ⟨h.1, h.2.1, ?_⟩
  exact h.2.2 wmap10 _ u10C rfl rfl (by decide) rfl hres
